import Mathlib

/-!
Verification development for the `cc` backend (ingestion-and-retrieval
pipeline of a RAG question-answering assistant).

The Python sources under `src/backend/` are shallowly embedded below:

* `rag_retriever.py` — chunking cascade (`smart_chunk_text` and its helper
  splitters), index lifecycle (`load_documents_and_build_index`,
  `load_index`, `clear_index`), and retrieval
  (`retrieve_relevant_chunks`).
* `rag_generator.py` — conversational validation and query rewriting in
  `generate_answer`.

Modelling conventions:

* Python strings are Lean `String`s processed as `List Char`; the `\s`
  character class is modelled as the ASCII whitespace characters
  (space, tab, `\n`, `\r`, `\x0b`, `\x0c`), which covers every input the
  program's own regexes and documents exercise.
* The specific regular expressions appearing in the source are embedded
  as dedicated character-level matching functions, each documented with
  the regex it implements; greedy/lazy quantifier behaviour is resolved
  statically where the character classes make the result unique.
* Float scores are idealised as rationals (`ℚ`); the boost literal `1.3`
  becomes `13/10`.
* External capabilities (the fastembed embedding model, the file system,
  the HuggingFace generation call) are parameters: an `embed` function,
  explicit extraction results, and explicit outcome values.
-/

namespace CC

/-- Python `\s` (ASCII range): space, tab, newline, carriage return,
vertical tab, form feed. -/
def isWs (c : Char) : Bool :=
  c = ' ' || c = '\t' || c = '\n' || c = '\x0d' || c = '\x0b' || c = '\x0c'

/-- Length of the maximal whitespace run at the head of the list. -/
def wsRunLen (cs : List Char) : Nat := (cs.takeWhile isWs).length

/-- Python `str.strip()`: drop leading and trailing whitespace. -/
def stripChars (cs : List Char) : List Char :=
  ((cs.dropWhile isWs).reverse.dropWhile isWs).reverse

/-- Python `str.strip()` on `String`. -/
def pyStrip (s : String) : String := String.mk (stripChars s.data)

/-- Python `str.lower()` (ASCII). -/
def lowerChars (cs : List Char) : List Char := cs.map Char.toLower

/-- Does `pat` occur at the head of `cs`?  (Boolean prefix test.) -/
def prefAt (pat cs : List Char) : Bool := pat.isPrefixOf cs

/-- Python `pat in s`: substring occurrence test (for nonempty `pat`). -/
def hasSubstr (pat : List Char) : List Char → Bool
  | [] => prefAt pat []
  | c :: rest => prefAt pat (c :: rest) || hasSubstr pat rest

/-- Scanner for Python `s.count(pat)` with nonempty `pat`: `skip` is the
number of characters still covered by the previous occurrence (inside
which no new occurrence may start). -/
def countOccGo (pat : List Char) (skip : Nat) : List Char → Nat
  | [] => 0
  | c :: rest =>
    match skip with
    | k + 1 => countOccGo pat k rest
    | 0 =>
      if pat.isPrefixOf (c :: rest) then
        1 + countOccGo pat (pat.length - 1) rest
      else countOccGo pat 0 rest

/-- Python `s.count(pat)`: number of non-overlapping occurrences,
scanning left to right. -/
def countOcc (pat : List Char) (cs : List Char) : Nat :=
  match pat with
  | [] => cs.length + 1
  | _ => countOccGo pat 0 cs

/-- Python `str.splitlines()` restricted to the `\n`, `\r`, `\r\n`
terminators (the ones the program's documents can contain). -/
def splitlinesGo (acc : List Char) : List Char → List (List Char)
  | [] => [acc.reverse]
  | '\x0d' :: '\n' :: rest => acc.reverse :: splitlinesGo [] rest
  | '\x0d' :: rest => acc.reverse :: splitlinesGo [] rest
  | '\n' :: rest => acc.reverse :: splitlinesGo [] rest
  | c :: rest => splitlinesGo (c :: acc) rest

/-- Python `str.splitlines()`: no trailing empty line when the text ends
with a terminator; empty string gives `[]`. -/
def pySplitlines (cs : List Char) : List (List Char) :=
  match cs with
  | [] => []
  | _ =>
    if cs.getLast? = some '\n' || cs.getLast? = some '\x0d' then
      (splitlinesGo [] cs).dropLast
    else
      splitlinesGo [] cs

theorem dropWhile_len_le (p : Char → Bool) (cs : List Char) :
    (cs.dropWhile p).length ≤ cs.length := by
  induction cs with
  | nil => simp
  | cons c rest ih =>
    by_cases h : p c
    · simp [List.dropWhile, h]; omega
    · simp [List.dropWhile, h]

/-- Python `str.split()` with no argument: split on whitespace runs,
dropping empty fields; `acc` is the current word, reversed. -/
def pySplitWsGo (acc : List Char) : List Char → List (List Char)
  | [] => if acc.isEmpty then [] else [acc.reverse]
  | c :: rest =>
    if isWs c then
      (if acc.isEmpty then [] else [acc.reverse]) ++ pySplitWsGo [] rest
    else pySplitWsGo (c :: acc) rest

def pySplitWs (cs : List Char) : List (List Char) := pySplitWsGo [] cs

/-- `re.sub(r'\s+', ' ', s)`: collapse each whitespace run to one space. -/
def collapseWs : List Char → List Char
  | [] => []
  | [c] => [if isWs c then ' ' else c]
  | c :: d :: rest =>
    if isWs c && isWs d then collapseWs (d :: rest)
    else (if isWs c then ' ' else c) :: collapseWs (d :: rest)

/-! ### Constants and regex character classes (`rag_retriever.py`, lines 27-33) -/

def MIN_CHUNK_CHARS : Nat := 60

def MAX_CHUNK_CHARS : Nat := 1200

/-- Character class of `BULLET_RE = ^[•\-\*\•\d\)\.]+\s+` (multiline). -/
def bulletChar (c : Char) : Bool :=
  c = '•' || c = '-' || c = '*' || c.isDigit || c = ')' || c = '.'

/-- Does `BULLET_RE` match at this position (a line start)?  The marker
class and `\s` are disjoint, so the greedy run is the maximal one. -/
def bulletMatchAt (cs : List Char) : Bool :=
  let r := (cs.takeWhile bulletChar).length
  decide (1 ≤ r) && (match (cs.drop r).head? with
    | some c => isWs c
    | none => false)

/-- `BULLET_RE.search(text)` with `re.M`: a match at the start of the
text or just after any newline. -/
def bulletSearchGo : List Char → Bool
  | [] => false
  | c :: rest => (c = '\n' && bulletMatchAt rest) || bulletSearchGo rest

def bulletSearch (cs : List Char) : Bool :=
  bulletMatchAt cs || bulletSearchGo cs

/-- `BULLET_RE.sub("", line)` for a single line (no interior newline):
only the match at position 0 is removed, marker run plus the greedy
whitespace run. -/
def bulletStrip (cs : List Char) : List Char :=
  if bulletMatchAt cs then
    let r := (cs.takeWhile bulletChar).length
    (cs.drop r).dropWhile isWs
  else cs

def isUpperAZ (c : Char) : Bool := 'A' ≤ c && c ≤ 'Z'

def isLowerAZ (c : Char) : Bool := 'a' ≤ c && c ≤ 'z'

/-- Python `\w` (ASCII): letters, digits, underscore. -/
def isWordChar (c : Char) : Bool := c.isAlphanum || c = '_'

/-- End-of-line position for `$` under `re.M`: end of text or just
before a newline. -/
def atEol (cs : List Char) : Bool :=
  match cs with
  | [] => true
  | c :: _ => c = '\n'

/-- Helper for `[cls]{min,}...\s*$`-shaped alternatives: after having
consumed `k` characters of class `cls`, succeed if at least `minRep`
were consumed and the current position is an end of line; the trailing
`\s*` is subsumed because `\s ⊆ cls` in both uses. -/
def classRunToEol (cls : Char → Bool) (minRep : Nat) : Nat → List Char → Bool
  | k, cs =>
    (decide (minRep ≤ k) && atEol cs) ||
    (match cs with
     | [] => false
     | c :: rest => cls c && classRunToEol cls minRep (k + 1) rest)

/-- `HEADING_RE` alternative `#{1,6}\s*`: nothing follows the repeats,
so one leading `#` suffices. -/
def headingAltSharp (cs : List Char) : Bool :=
  match cs with
  | '#' :: _ => true
  | _ => false

/-- `HEADING_RE` alternative `[A-Z][A-Z\s]{3,}\s*$`. -/
def headingAltCaps (cs : List Char) : Bool :=
  match cs with
  | c :: rest =>
    isUpperAZ c && classRunToEol (fun d => isUpperAZ d || isWs d) 3 0 rest
  | [] => false

/-- `HEADING_RE` alternative `[A-Z][a-z]+\s*[-]{2,}`: the classes are
pairwise disjoint, so the greedy runs are the maximal ones. -/
def headingAltDashes (cs : List Char) : Bool :=
  match cs with
  | c :: rest =>
    isUpperAZ c &&
      (let lr := (rest.takeWhile isLowerAZ).length
       decide (1 ≤ lr) &&
         (match (rest.drop lr).dropWhile isWs with
          | '-' :: '-' :: _ => true
          | _ => false))
  | [] => false

/-- `HEADING_RE` alternative `^[A-Z][\w\s]{10,}$`. -/
def headingAltLong (cs : List Char) : Bool :=
  match cs with
  | c :: rest =>
    isUpperAZ c && classRunToEol (fun d => isWordChar d || isWs d) 10 0 rest
  | [] => false

/-- `HEADING_RE.match` at a line-start position. -/
def headingMatchAt (cs : List Char) : Bool :=
  headingAltSharp cs || headingAltCaps cs || headingAltDashes cs ||
    headingAltLong cs

/-- `HEADING_RE.search(text)` with `re.M`. -/
def headingSearchGo : List Char → Bool
  | [] => false
  | c :: rest => (c = '\n' && headingMatchAt rest) || headingSearchGo rest

def headingSearch (cs : List Char) : Bool :=
  headingMatchAt cs || headingSearchGo cs

/-! ### Email / phone detection (`EMAIL_RE`, `PHONE_RE`, lines 27-28) -/

/-- Local-part class of `EMAIL_RE`: `[A-Za-z0-9._%+-]`. -/
def emailLocalChar (c : Char) : Bool :=
  c.isAlphanum || c = '.' || c = '_' || c = '%' || c = '+' || c = '-'

/-- Domain class of `EMAIL_RE`: `[A-Za-z0-9.-]`. -/
def emailDomainChar (c : Char) : Bool :=
  c.isAlphanum || c = '.' || c = '-'

def twoAlpha (cs : List Char) : Bool :=
  match cs with
  | a :: b :: _ => a.isAlpha && b.isAlpha
  | _ => false

/-- After the `@`: does `[A-Za-z0-9.-]+\.[A-Za-z]{2,}` match here?
`consumed` records whether at least one domain character was consumed. -/
def emailDomainSeek (consumed : Bool) : List Char → Bool
  | [] => false
  | c :: rest =>
    (c = '.' && consumed && twoAlpha rest) ||
    (emailDomainChar c && emailDomainSeek true rest)

/-- Does `EMAIL_RE` match starting exactly at this position?  `@` is not
in the local class, so the greedy local run is the maximal one. -/
def emailMatchAt (cs : List Char) : Bool :=
  let l := (cs.takeWhile emailLocalChar).length
  decide (1 ≤ l) && (match cs.drop l with
    | '@' :: rest => emailDomainSeek false rest
    | _ => false)

/-- `bool(EMAIL_RE.search(chunk))`. -/
def containsEmailB (s : String) : Bool :=
  s.data.tails.any emailMatchAt

/-- Separator class `[-.\s]` of `PHONE_RE`. -/
def phoneSep (c : Char) : Bool := c = '-' || c = '.' || isWs c

/-- Are the first `n` characters digits? -/
def digitsAt (n : Nat) (cs : List Char) : Bool :=
  decide ((cs.take n).length = n) && (cs.take n).all Char.isDigit

/-- `\d{5,12}` with nothing after it: five digits suffice. -/
def fiveDigits (cs : List Char) : Bool := digitsAt 5 cs

/-- `[-.\s]?\d{5,12}`. -/
def sepThenBody (cs : List Char) : Bool :=
  fiveDigits cs || (match cs with
    | c :: rest => phoneSep c && fiveDigits rest
    | [] => false)

/-- `(?:\(\d{2,4}\)|\d{2,4})[-.\s]?\d{5,12}`: all decompositions are
tried, matching the regex engine's backtracking. -/
def phoneCore (cs : List Char) : Bool :=
  (match cs with
   | '(' :: rest =>
     [2, 3, 4].any fun d =>
       digitsAt d rest && (match rest.drop d with
         | ')' :: after => sepThenBody after
         | _ => false)
   | _ => false) ||
  ([2, 3, 4].any fun d => digitsAt d cs && sepThenBody (cs.drop d))

/-- Lengths the optional prefix `(?:\+?\d{1,3}[-.\s]?)?` can consume. -/
def phonePrefLens (cs : List Char) : List Nat :=
  0 :: (([0, 1].flatMap fun p => [1, 2, 3].flatMap fun d => [0, 1].map
    fun s => (p, d, s)).filterMap fun pds =>
      let p := pds.1; let d := pds.2.1; let s := pds.2.2
      let okPlus := p = 0 || (match cs.head? with
        | some c => c = '+'
        | none => false)
      let okDigits := digitsAt d (cs.drop p)
      let okSep := s = 0 || (match (cs.drop (p + d)).head? with
        | some c => phoneSep c
        | none => false)
      if okPlus && okDigits && okSep then some (p + d + s) else none)

/-- Does `PHONE_RE` match starting exactly at this position? -/
def phoneMatchAt (cs : List Char) : Bool :=
  (phonePrefLens cs).any fun n => phoneCore (cs.drop n)

/-- `bool(PHONE_RE.search(chunk))`. -/
def containsPhoneB (s : String) : Bool :=
  s.data.tails.any phoneMatchAt

/-! ### Chunking helpers (`rag_retriever.py`, lines 84-154) -/

/-- `normalize_whitespace` (line 84): `re.sub(r'\s+', ' ', s).strip()`. -/
def normalize_whitespace (s : String) : String :=
  String.mk (stripChars (collapseWs s.data))

/-- Index of the last newline in the list, if any. -/
def lastNlIdx (cs : List Char) : Option Nat :=
  match cs.reverse.findIdx? (fun c => c = '\n') with
  | some j => some (cs.length - 1 - j)
  | none => none

/-- `re.split(r'\n\s*\n+', text)`: a match is a newline followed by the
whitespace of the maximal run up to (and including) its last newline
(the backtracking-first decomposition of `\s*\n+`). -/
def paraSplitGo (acc : List Char) (skip : Nat) :
    List Char → List (List Char)
  | [] => [acc.reverse]
  | c :: rest =>
    match skip with
    | k + 1 => paraSplitGo acc k rest
    | 0 =>
      if c = '\n' then
        match lastNlIdx (rest.takeWhile isWs) with
        | some k => acc.reverse :: paraSplitGo [] (k + 1) rest
        | none => paraSplitGo (c :: acc) 0 rest
      else paraSplitGo (c :: acc) 0 rest

/-- `split_paragraphs` (lines 87-89). -/
def split_paragraphs (t : String) : List String :=
  ((paraSplitGo [] 0 t.data).map
    (fun cs => String.mk (stripChars cs))).filter (fun p => 30 < p.length)

/-- Case-insensitive literal prefix test (`pat` given lowercase). -/
def ciPrefAt (pat cs : List Char) : Bool :=
  pat.isPrefixOf (lowerChars (cs.take pat.length))

/-- Length consumed by `faculty member\s*\d*\s*` (flags `re.I`) matching
at the head, if it matches; the runs are greedy-maximal since nothing
follows and `\s`, `\d` are disjoint. -/
def fmDelimAt (cs : List Char) : Option Nat :=
  if ciPrefAt "faculty member".data cs then
    let r1 := cs.drop 14
    let w1 := (r1.takeWhile isWs).length
    let r2 := r1.drop w1
    let d := (r2.takeWhile Char.isDigit).length
    let r3 := r2.drop d
    some (14 + w1 + d + ((r3.takeWhile isWs).length))
  else none

/-- `re.split(r'faculty member\s*\d*\s*', text, flags=re.I)`: left-to-right
non-overlapping matches.  A returned count is always at least 14; after
a match the next `n - 1` characters (beyond the current one) belong to
the match and are skipped. -/
def fmSplitGo (acc : List Char) (skip : Nat) :
    List Char → List (List Char)
  | [] => [acc.reverse]
  | c :: rest =>
    match skip with
    | k + 1 => fmSplitGo acc k rest
    | 0 =>
      match fmDelimAt (c :: rest) with
      | some n => acc.reverse :: fmSplitGo [] (n - 1) rest
      | none => fmSplitGo (c :: acc) 0 rest

/-- Length consumed by `\s*full name\s*[:\-]\s*` (pattern flag `(?i)`)
matching at the head, if it matches; `f` is not whitespace, so the
leading `\s*` is the maximal whitespace run. -/
def fnDelimAt (cs : List Char) : Option Nat :=
  let w1 := (cs.takeWhile isWs).length
  let r1 := cs.drop w1
  if ciPrefAt "full name".data r1 then
    let r2 := r1.drop 9
    let w2 := (r2.takeWhile isWs).length
    let r3 := r2.drop w2
    match r3.head? with
    | some c =>
      if c = ':' || c = '-' then
        some (w1 + 9 + w2 + 1 + (((r3.drop 1).takeWhile isWs).length))
      else none
    | none => none
  else none

/-- Scanner for `re.split(r'(?i)(?:\n|^)\s*full name\s*[:\-]\s*', text)`
past position 0: without `re.M`, `^` only matches at the very start, so
an interior match must begin with a literal newline. -/
def fnSplitGo (acc : List Char) (skip : Nat) :
    List Char → List (List Char)
  | [] => [acc.reverse]
  | c :: rest =>
    match skip with
    | k + 1 => fnSplitGo acc k rest
    | 0 =>
      if c = '\n' then
        match fnDelimAt rest with
        | some n => acc.reverse :: fnSplitGo [] n rest
        | none => fnSplitGo (c :: acc) 0 rest
      else fnSplitGo (c :: acc) 0 rest

/-- The full `re.split(r'(?i)(?:\n|^)\s*full name\s*[:\-]\s*', text)`:
at position 0 the alternation tries the `\n` branch, then the `^`
branch; afterwards only interior newline matches are possible. -/
def fnSplit (cs : List Char) : List (List Char) :=
  let first : Option Nat :=
    match cs with
    | '\n' :: rest =>
      match fnDelimAt rest with
      | some n => some (1 + n)
      | none => fnDelimAt cs
    | _ => fnDelimAt cs
  match first with
  | some n => [] :: fnSplitGo [] n cs
  | none => fnSplitGo [] 0 cs

/-- `split_structured_records` (lines 91-104). -/
def split_structured_records (t : String) : List String :=
  if hasSubstr "faculty member".data (lowerChars t.data) then
    ((fmSplitGo [] 0 t.data).map (fun cs => String.mk (stripChars cs))).filter
      (fun p => MIN_CHUNK_CHARS < p.length)
  else if 2 ≤ countOcc "full name".data (lowerChars t.data) then
    let parts := fnSplit t.data
    let parts :=
      match parts with
      | p :: rest => if (stripChars p).length < 20 then rest else p :: rest
      | [] => []
    (parts.filter (fun p => MIN_CHUNK_CHARS ≤ (stripChars p).length)).map
      (fun p => "Full Name: " ++ String.mk (stripChars p))
  else []

def joinSpace (ls : List (List Char)) : List Char := List.intercalate [' '] ls

def joinNl (ls : List (List Char)) : List Char := List.intercalate ['\n'] ls

/-- The accumulation loop of `split_bulleted_lists` (lines 107-118). -/
def sblGo (buf : List (List Char)) : List (List Char) → List (List Char)
  | [] => if buf.isEmpty then [] else [joinSpace buf]
  | l :: rest =>
    if bulletMatchAt l then sblGo (buf ++ [stripChars (bulletStrip l)]) rest
    else
      (if buf.isEmpty then [] else [joinSpace buf]) ++ l :: sblGo [] rest

/-- `split_bulleted_lists` (lines 106-119). -/
def split_bulleted_lists (t : String) : List String :=
  ((sblGo [] (pySplitlines t.data)).map
    (fun o => String.mk (stripChars o))).filter (fun o => 30 < o.length)

/-- The accumulation loop of `split_by_headings` (lines 122-131). -/
def sbhGo (buf : List (List Char)) : List (List Char) → List (List Char)
  | [] => if buf.isEmpty then [] else [stripChars (joinNl buf)]
  | l :: rest =>
    if headingMatchAt (stripChars l) && !buf.isEmpty then
      stripChars (joinNl buf) :: sbhGo [l] rest
    else sbhGo (buf ++ [l]) rest

/-- `split_by_headings` (lines 121-139). -/
def split_by_headings (t : String) : List String :=
  let chunks := (sbhGo [] (pySplitlines t.data)).map (fun cs => String.mk cs)
  (chunks.flatMap
    (fun c => if MAX_CHUNK_CHARS < c.length then split_paragraphs c
              else [c])).filter (fun o => 30 < o.length)

/-- `re.split(r'(?<=[.!?])\s+', text)`: split at each maximal whitespace
run whose preceding character is sentence-final punctuation. -/
def sentSplitGo (acc : List Char) (skip : Nat) :
    List Char → List (List Char)
  | [] => [acc.reverse]
  | c :: rest =>
    match skip with
    | k + 1 => sentSplitGo acc k rest
    | 0 =>
      if isWs c && (match acc.head? with
          | some p => p = '.' || p = '!' || p = '?'
          | none => false) then
        acc.reverse :: sentSplitGo [] (wsRunLen rest) rest
      else sentSplitGo (c :: acc) 0 rest

/-- Lines 142-143: split into sentences, strip, drop empties. -/
def sentenceSplit (t : String) : List String :=
  ((sentSplitGo [] 0 t.data).map
    (fun cs => String.mk (stripChars cs))).filter (fun s => s ≠ "")

/-- The greedy packing loop of `fallback_sentence_split`
(lines 144-153). -/
def packSents (chunks : List String) (current : String) :
    List String → List String
  | [] =>
    if current ≠ "" && decide (MIN_CHUNK_CHARS ≤ current.length) then
      chunks ++ [current]
    else chunks
  | s :: rest =>
    if current.length + s.length + 1 ≤ MAX_CHUNK_CHARS then
      packSents chunks (pyStrip (current ++ " " ++ s)) rest
    else
      packSents
        (if MIN_CHUNK_CHARS ≤ current.length then chunks ++ [current]
         else chunks) s rest

/-- `fallback_sentence_split` (lines 141-154). -/
def fallback_sentence_split (t : String) : List String :=
  let chunks := packSents [] "" (sentenceSplit t)
  if chunks.isEmpty then [String.mk ((stripChars t.data).take MAX_CHUNK_CHARS)]
  else chunks

/-- `smart_chunk_text` (lines 156-176): the strategy cascade. -/
def smart_chunk_text (text : String) : List String :=
  let t := pyStrip text
  if t.length < MIN_CHUNK_CHARS then []
  else
    let records := split_structured_records t
    if !records.isEmpty then records.map normalize_whitespace
    else if bulletSearch t.data then
      (split_bulleted_lists t).map normalize_whitespace
    else if headingSearch t.data then
      (split_by_headings t).map normalize_whitespace
    else
      let paras := split_paragraphs t
      if 1 < paras.length then
        (paras.flatMap (fun p =>
          if MAX_CHUNK_CHARS < p.length then fallback_sentence_split p
          else [p])).map normalize_whitespace
      else (fallback_sentence_split t).map normalize_whitespace

/-! ### Generator (`rag_generator.py`)

The generation call itself is external; its outcome (a reply text or a
raised failure) is an explicit `Except` parameter.  Python dynamic
typing of the `history` argument is embedded by sum types: a history
value is either not a list, or a list of entries, each of which is
either a proper role/content record or something else (whose key access
raises). -/

/-- One history entry. -/
inductive HEntry where
  | turn (role : String) (content : String)
  | malformed
deriving DecidableEq, Repr

/-- A value passed as `history`. -/
inductive HistoryVal where
  | notAList
  | ofList (entries : List HEntry)
deriving DecidableEq, Repr

/-- The follow-up keyword list (`rag_generator.py`, lines 49-52);
Python `word in user_message.lower()` is substring containment. -/
def gen_is_followup (um : String) : Bool :=
  decide ((pySplitWs um.data).length ≤ 8) &&
    (["his", "her", "their", "email", "contact", "phone", "number",
      "address", "it", "that", "ph"].any fun k =>
        hasSubstr k.data (lowerChars um.data))

/-- The contact-keyword list of the generator (lines 66-69). -/
def gen_is_contact_query (um : String) : Bool :=
  ["email", "contact", "phone", "mobile", "number", "address", "reach",
    "call", "ph"].any fun k => hasSubstr k.data (lowerChars um.data)

/-- `top_k` selection (line 72). -/
def top_k_value (um : String) : Nat :=
  if gen_is_contact_query um then 12 else 5

/-- The surname alternation of the name pattern (line 59), in source
order. -/
def surnameFind (cs : List Char) : Option (List Char) :=
  (["Bandh", "Zargar", "Dar", "Shah", "Ahmad", "Khan", "Bhat"].find?
    fun sn => sn.data.isPrefixOf cs).map String.data

def wordOrWs (c : Char) : Bool := isWordChar c || isWs c

/-- A match of `Dr\.\s+[\w\s]+?(?:\s+(?:Bandh|Zargar|Dar|Shah|Ahmad|Khan|Bhat))`
starting exactly at this position, following the engine's backtracking
order: the greedy `\s+` is tried longest first, the lazy `[\w\s]+?`
shortest first; the `\s+` before the surname is forced to the full
whitespace run because no surname starts with whitespace. -/
def drMatchAt (cs : List Char) : Option (List Char) :=
  if "Dr.".data.isPrefixOf cs then
    let rest := cs.drop 3
    let amax := wsRunLen rest
    ((List.range amax).map (fun i => amax - i)).findSome? fun a =>
      let afterA := rest.drop a
      let bmax := (afterA.takeWhile wordOrWs).length
      (List.range bmax).findSome? fun bm1 =>
        let b := bm1 + 1
        let pos := afterA.drop b
        let c := wsRunLen pos
        if 1 ≤ c then
          match surnameFind (pos.drop c) with
          | some sn =>
            some ("Dr.".data ++ rest.take a ++ afterA.take b ++
              pos.take c ++ sn)
          | none => none
        else none
  else none

/-- `re.findall(...)[0]` of the name pattern: the leftmost match. -/
def drFindFirst : List Char → Option (List Char)
  | [] => none
  | c :: rest =>
    match drMatchAt (c :: rest) with
    | some m => some m
    | none => drFindFirst rest

/-- The index sequence `range(len(history)-2, max(len(history)-8,-1), -1)`
(line 56) over natural-number indices. -/
def scanIdxs (n : Nat) : List Nat :=
  (List.range (n - 1 - (n - 7))).map fun t => n - 2 - t

/-- The look-back loop (lines 56-63): walk recent prior entries from the
most recent backward; on the first entry whose content matches the name
pattern, rewrite the query; accessing a non-record entry raises. -/
def effectiveQueryLoop (es : List HEntry) (um : String) :
    List Nat → Except String String
  | [] => .ok um
  | i :: idxs =>
    match es.get? i with
    | some (.turn _ content) =>
      match drFindFirst content.data with
      | some nm =>
        .ok (String.mk (stripChars nm) ++ " contact email phone")
      | none => effectiveQueryLoop es um idxs
    | some .malformed => .error "KeyError: history entry has no content key"
    | none => .ok um

/-- The query-rewriting block of `generate_answer` (lines 43-63). -/
def effective_query (es : List HEntry) (um : String) :
    Except String String :=
  if 2 ≤ es.length && gen_is_followup um then
    effectiveQueryLoop es um (scanIdxs es.length)
  else .ok um

/-- First index at which `pat` occurs, if any. -/
def findSubIdx (pat : List Char) : List Char → Option Nat
  | [] => if pat.isPrefixOf ([] : List Char) then some 0 else none
  | c :: rest =>
    if pat.isPrefixOf (c :: rest) then some 0
    else (findSubIdx pat rest).map (· + 1)

/-- `re.sub(r"<think>.*?</think>", "", reply, flags=re.DOTALL)`: each
match runs from an opening tag to the first closing tag after it;
`skip` counts characters still inside the match being removed. -/
def removeThinkGo (skip : Nat) : List Char → List Char
  | [] => []
  | c :: rest =>
    match skip with
    | k + 1 => removeThinkGo k rest
    | 0 =>
      if "<think>".data.isPrefixOf (c :: rest) then
        match findSubIdx "</think>".data (rest.drop 6) with
        | some j => removeThinkGo (6 + j + 8) rest
        | none => c :: removeThinkGo 0 rest
      else c :: removeThinkGo 0 rest

def removeThinkScan (cs : List Char) : List Char := removeThinkGo 0 cs

/-- `generate_answer` (lines 28-224).  `docs` is the retrieval result
(it feeds only the prompt for the external generation call);
`genOutcome` is that call's outcome.  Returns `Except.error` exactly
where the Python function lets an exception escape. -/
def generate_answer (_docs : List (String × ℚ))
    (genOutcome : Except String String) (hv : HistoryVal) :
    Except String String :=
  match hv with
  | .notAList => .ok "Invalid chat history."
  | .ofList [] => .ok "Invalid chat history."
  | .ofList (e :: es) =>
    match (e :: es).getLast? with
    | none => .error "unreachable: a nonempty list has a last element"
    | some .malformed => .error "KeyError: history entry has no role key"
    | some (.turn role content) =>
      let um := if role = "user" then content else ""
      if pyStrip um = "" then .ok "Please ask a valid question."
      else
        match effective_query (e :: es) um with
        | .error err => .error err
        | .ok _query =>
          -- retrieval over `_query` with `top_k_value um` produces
          -- `docs`; context assembly and the history trim feed only the
          -- external generation call, whose outcome is `genOutcome`
          match genOutcome with
          | .ok reply =>
            .ok (String.mk (stripChars (removeThinkScan reply.data)))
          | .error msg => .ok ("Error generating answer: " ++ msg)


/-! ### Index data model (`rag_retriever.py`, lines 20-22 and 181-250)

The embedding model is an external capability (`fastembed`), passed as a
function `embed : String → Vec`; vectors are idealised as rational
lists.  The file system is external: a build receives the extraction
results (file name and `(page, text)` pairs per file) and persistence is
a `Disk` value; a load receives an outcome describing where parsing of
the persisted files failed, if anywhere. -/

/-- Chunk metadata (`rag_retriever.py`, lines 202-209). -/
structure Meta where
  source_file : String
  page : Nat
  chunk_id : String
  length : Nat
  contains_email : Bool
  contains_phone : Bool
deriving DecidableEq, Repr

/-- One embedding vector (float entries idealised as rationals). -/
abbrev Vec := List ℚ

/-- The module-level globals `corpus`, `corpus_metadata`,
`corpus_embeddings` (lines 20-22). -/
structure Store where
  corpus : List String
  corpus_metadata : List Meta
  corpus_embeddings : Option (List Vec)
deriving DecidableEq, Repr

def emptyStore : Store := ⟨[], [], none⟩

/-- The persisted pair `corpus_embeddings.npy` / `corpus.json`
(lines 227-230), as parsed content. -/
structure Disk where
  emb_file : Option (List Vec)
  corpus_file : Option (List (String × Meta))
deriving DecidableEq, Repr

def emptyDisk : Disk := ⟨none, none⟩

/-- The chunk-accumulation loop of `load_documents_and_build_index`
(lines 190-210): pages shorter than 30 characters after stripping are
skipped; each chunk gets derived metadata. -/
def buildCorpusData (files : List (String × List (Nat × String))) :
    List (String × Meta) :=
  files.flatMap fun fp =>
    fp.2.flatMap fun pg =>
      if (pyStrip pg.2).length < 30 then []
      else (smart_chunk_text pg.2).enum.map fun ic =>
        (ic.2,
          { source_file := fp.1
            page := pg.1
            chunk_id := toString pg.1 ++ "_" ++ toString ic.1
            length := ic.2.length
            contains_email := containsEmailB ic.2
            contains_phone := containsPhoneB ic.2 })

/-- `load_documents_and_build_index` (lines 181-232), for a build that
runs to completion.  The batched embedding loop (batch size 64,
lines 219-225) concatenates to a plain map over the corpus.  Note that
on the missing-folder and zero-chunk paths the function returns before
touching the persisted files. -/
def load_documents_and_build_index (embed : String → Vec)
    (folderExists : Bool) (files : List (String × List (Nat × String)))
    (_st : Store) (dk : Disk) : Store × Disk :=
  if !folderExists then (emptyStore, dk)
  else
    let corpus_data := buildCorpusData files
    if corpus_data.isEmpty then (emptyStore, dk)
    else
      let corpus := corpus_data.map Prod.fst
      let metas := corpus_data.map Prod.snd
      let embs := corpus.map embed
      (⟨corpus, metas, some embs⟩, ⟨some embs, some corpus_data⟩)

/-- Where a `load_index` run fails, if anywhere.  `load_index` assigns
`corpus_embeddings` first (line 241), then parses `corpus.json`
(line 243), then builds `corpus` (line 244), then `corpus_metadata`
(line 245); the `except` clause (line 249) catches whatever was raised,
keeping all assignments already made. -/
inductive LoadOutcome where
  | success
  | embCorrupt
  | corpusCorrupt
  | metaCorrupt
deriving DecidableEq, Repr

/-- `load_index` (lines 234-250). -/
def load_index (st : Store) (dk : Disk) (out : LoadOutcome) : Store :=
  match dk.emb_file, dk.corpus_file with
  | some embs, some data =>
    (match out with
     | .success => ⟨data.map Prod.fst, data.map Prod.snd, some embs⟩
     | .embCorrupt => st
     | .corpusCorrupt => { st with corpus_embeddings := some embs }
     | .metaCorrupt =>
       { corpus := data.map Prod.fst
         corpus_metadata := st.corpus_metadata
         corpus_embeddings := some embs })
  | _, _ => st

/-- `clear_index` (lines 299-310): the in-memory reset happens before
any file deletion, and a deletion failure is caught. -/
def clear_index (_st : Store) (dk : Disk) (deleteFails : Bool) :
    Store × Disk :=
  (emptyStore, if deleteFails then dk else emptyDisk)

/-! ### Retrieval (`rag_retriever.py`, lines 255-294)

The similarity row `sims = cosine_similarity(query_vec, corpus_embeddings)[0]`
is produced by the external embedding model and float numerics
(lines 255-258 and 275-276); it enters the embedded ranking logic as an
explicit rational-valued parameter.  `np.argsort` with its default
`quicksort` kind is modelled by a comparison sort; numpy does not
guarantee a stable order among tied scores, and no theorem below
depends on the model's tie order. -/

/-- The contact-keyword list of `retrieve_relevant_chunks`
(lines 271-272); Python `word in query_lower` is substring
containment. -/
def ret_is_contact_query (query : String) : Bool :=
  ["email", "contact", "phone", "mobile", "number", "call", "reach",
    "ph"].any fun k => hasSubstr k.data (lowerChars query.data)

/-- The boost literal `1.3` (line 283) as a rational. -/
def boostFactor : ℚ := 13 / 10

/-- The boosting loop (lines 279-283): for a contact query, multiply
the score of every chunk whose metadata has `contains_email` or
`contains_phone` by the boost factor. -/
def applyBoost (isContact : Bool) (metas : List Meta) (sims : List ℚ) :
    List ℚ :=
  if isContact && !metas.isEmpty then
    sims.enum.map fun is =>
      match metas.get? is.1 with
      | some m =>
        if m.contains_email || m.contains_phone then is.2 * boostFactor
        else is.2
      | none => is.2
  else sims

/-- `np.argsort(-sims)` (line 286): indices sorted by descending
score. -/
def argsortDesc (sims : List ℚ) : List Nat :=
  List.insertionSort (fun i j => sims.getD j 0 ≤ sims.getD i 0)
    (List.range sims.length)

/-- `retrieve_relevant_chunks` (lines 260-294) from the similarity row
onwards, including the empty-index guard (line 263). -/
def retrieve_relevant_chunks (st : Store) (query : String)
    (sims : List ℚ) (top_k : Nat) : List (String × ℚ) :=
  if st.corpus_embeddings.isNone || st.corpus.isEmpty then []
  else
    let boosted := applyBoost (ret_is_contact_query query)
      st.corpus_metadata sims
    ((argsortDesc boosted).take top_k).map fun i =>
      (st.corpus.getD i "", boosted.getD i 0)

/-! ### Index lifecycle as a transition system (for the reachability
invariant of the spec's data-model section) -/

/-- One completed operation on the shared index state, with its
file-system outcome. -/
inductive Op where
  | build (folderExists : Bool)
      (files : List (String × List (Nat × String)))
  | load (out : LoadOutcome)
  | clear (deleteFails : Bool)

def step (embed : String → Vec) (s : Store × Disk) : Op → Store × Disk
  | .build fe files =>
    load_documents_and_build_index embed fe files s.1 s.2
  | .load out => (load_index s.1 s.2 out, s.2)
  | .clear df => clear_index s.1 s.2 df

/-- Run a sequence of completed operations from the process-start state
(empty in-memory index, no persisted files). -/
def runOps (embed : String → Vec) (ops : List Op) : Store × Disk :=
  ops.foldl (step embed) (emptyStore, emptyDisk)

/-- The spec's "ready" invariant:
`len(corpus) == len(corpus_metadata) == row_count(corpus_embeddings)`. -/
def readyB (st : Store) : Bool :=
  match st.corpus_embeddings with
  | some embs =>
    st.corpus.length = st.corpus_metadata.length &&
      st.corpus.length = embs.length
  | none => false

/-- The spec's explicit "empty" state. -/
def emptyB (st : Store) : Bool :=
  st.corpus.isEmpty && st.corpus_metadata.isEmpty &&
    st.corpus_embeddings.isNone


/-- Load outcomes after which `load_index` cannot leave a torn state:
either both persisted files parse, or the failure happens before any
assignment to the in-memory globals. -/
def goodLoadB : Op → Bool
  | .load .corpusCorrupt => false
  | .load .metaCorrupt => false
  | _ => true

/-- The persisted pair is aligned: both files absent, or both present
with matching row counts (every completed build writes such a pair). -/
def diskOkB (dk : Disk) : Bool :=
  match dk.emb_file, dk.corpus_file with
  | none, none => true
  | some embs, some data => embs.length = data.length
  | _, _ => false


/-! ## Claims -/

/-- Claim C10 (confirmed): `clear_index` always returns normally and
always leaves the in-memory index in the empty state (`corpus = []`,
`corpus_metadata = []`, `corpus_embeddings = none`), even when deleting
the persisted files fails, because the in-memory reset happens before
any file deletion and deletion errors are caught; consequently any
`retrieve_relevant_chunks` call on the cleared state returns the empty
sequence. -/
theorem C10_theorem (st : Store) (dk : Disk) (deleteFails : Bool)
    (query : String) (sims : List ℚ) (top_k : Nat) :
    (clear_index st dk deleteFails).1 = emptyStore ∧
    retrieve_relevant_chunks (clear_index st dk deleteFails).1 query sims
      top_k = [] :=
  ⟨rfl, rfl⟩

/-- Claim C8, counterexample: a build over a folder yielding zero chunks
(here: one file whose single page is shorter than 30 characters) resets
the in-memory index but returns before touching the persisted files, so
stale files from an earlier build remain on disk and do not reflect the
empty state. -/
theorem C8_counterexample :
    load_documents_and_build_index (fun _ => [1]) true
        [("empty.txt", [(1, "too short")])] emptyStore
        ⟨some [[1]],
          some [("stale chunk", ⟨"old.txt", 1, "1_0", 11, false, false⟩)]⟩ =
      (emptyStore,
        ⟨some [[1]],
          some [("stale chunk", ⟨"old.txt", 1, "1_0", 11, false, false⟩)]⟩) ∧
    (⟨some [[1]],
        some [("stale chunk", ⟨"old.txt", 1, "1_0", 11, false, false⟩)]⟩ :
      Disk) ≠ emptyDisk :=
  ⟨rfl, by decide⟩

/-- Claim C8 (corrected): when a completed build produces zero chunks,
the in-memory Index is reset to the empty state, but the persisted
index files are left untouched (the function returns before the
persistence step), so the files on disk reflect the empty state only if
nothing was persisted earlier. -/
theorem C8_theorem (embed : String → Vec)
    (files : List (String × List (Nat × String))) (st : Store) (dk : Disk)
    (h : buildCorpusData files = []) :
    load_documents_and_build_index embed true files st dk =
      (emptyStore, dk) := by
  simp [load_documents_and_build_index, h]

/-- Witness for C8_theorem at a concrete folder content. -/
theorem C8_witness :
    buildCorpusData [("short.txt", [(1, "tiny page")])] = [] ∧
    load_documents_and_build_index (fun _ => []) true
        [("short.txt", [(1, "tiny page")])] emptyStore
        ⟨some [], some []⟩ =
      (emptyStore, ⟨some [], some []⟩) :=
  ⟨by decide, C8_theorem (fun _ => []) _ _ _ (by decide)⟩

/-- Claim C9 (confirmed): a successful build that persists `n` chunks,
followed by a `load_index` into a fresh empty Index that reads both
persisted files, yields a corpus of the same length `n` with chunk
texts identical and positionally aligned, and metadata records
structurally equal to those persisted. -/
theorem C9_theorem (embed : String → Vec)
    (files : List (String × List (Nat × String))) (st : Store) (dk : Disk)
    (h : buildCorpusData files ≠ []) :
    (load_index emptyStore
        (load_documents_and_build_index embed true files st dk).2
        LoadOutcome.success).corpus =
      (load_documents_and_build_index embed true files st dk).1.corpus ∧
    (load_index emptyStore
        (load_documents_and_build_index embed true files st dk).2
        LoadOutcome.success).corpus_metadata =
      (load_documents_and_build_index embed true files st dk).1.corpus_metadata ∧
    (load_index emptyStore
        (load_documents_and_build_index embed true files st dk).2
        LoadOutcome.success).corpus.length =
      (buildCorpusData files).length := by
  simp [load_documents_and_build_index, load_index,
    List.isEmpty_iff, h]

/-- Witness for C9_theorem at a concrete one-page folder producing one
chunk. -/
theorem C9_witness :
    buildCorpusData
        [("a.txt",
          [(1,
            "aaaaaaaaaaaaaaaaaaaaaaaaaaaaaaaaaaaaaaaaaaaaaaaaaaaaaaaaaaaaaaaaaaaaaa")])] ≠
      [] ∧
    (load_index emptyStore
        (load_documents_and_build_index (fun _ => []) true
          [("a.txt",
            [(1,
              "aaaaaaaaaaaaaaaaaaaaaaaaaaaaaaaaaaaaaaaaaaaaaaaaaaaaaaaaaaaaaaaaaaaaaa")])]
          emptyStore emptyDisk).2 LoadOutcome.success).corpus.length =
      (buildCorpusData
        [("a.txt",
          [(1,
            "aaaaaaaaaaaaaaaaaaaaaaaaaaaaaaaaaaaaaaaaaaaaaaaaaaaaaaaaaaaaaaaaaaaaaa")])]).length :=
  ⟨by decide,
    (C9_theorem (fun _ => []) _ emptyStore emptyDisk (by decide)).2.2⟩

/-- Claim C3, counterexample: for the two-turn history whose first
entry mentions "Dr. Jane Smith" and whose final user turn is
"what's her phone?", the rewriting block leaves the query unchanged
(the name pattern requires one of the hard-coded surnames, and "Smith"
is not among them), so the effective retrieval query is not
"Jane Smith contact email phone". -/
theorem C3_counterexample :
    effective_query
        [HEntry.turn "assistant" "Meet Dr. Jane Smith today.",
         HEntry.turn "user" "what's her phone?"] "what's her phone?" =
      Except.ok "what's her phone?" ∧
    ("what's her phone?" : String) ≠ "Jane Smith contact email phone" :=
  ⟨rfl, by decide⟩

/-- Claim C3 (corrected): for the "Dr. Jane Smith" two-turn scenario the
query rewriting in `generate_answer` leaves the effective retrieval
query as the raw user message "what's her phone?" (the name pattern
matches only the surnames Bandh, Zargar, Dar, Shah, Ahmad, Khan, Bhat),
while retrieval does use `top_k = 12`; had the mentioned name ended in a
listed surname (e.g. "Dr. Jane Shah"), the effective query would be
"Dr. Jane Shah contact email phone" — the matched name keeps the "Dr."
title. -/
theorem C3_theorem :
    effective_query
        [HEntry.turn "assistant" "Meet Dr. Jane Smith today.",
         HEntry.turn "user" "what's her phone?"] "what's her phone?" =
      Except.ok "what's her phone?" ∧
    top_k_value "what's her phone?" = 12 ∧
    effective_query
        [HEntry.turn "assistant" "Meet Dr. Jane Shah today.",
         HEntry.turn "user" "what's her phone?"] "what's her phone?" =
      Except.ok "Dr. Jane Shah contact email phone" :=
  ⟨rfl, rfl, rfl⟩

/-- Claim C7, counterexample: a history value that is a one-element list
whose entry is not a role/content record makes `generate_answer`
propagate an exception (Python raises `KeyError`/`TypeError` at
`history[-1]["role"]`), so the claim's "for every input value" fails. -/
theorem C7_counterexample :
    generate_answer [] (Except.ok "a grounded reply")
        (HistoryVal.ofList [HEntry.malformed]) =
      Except.error "KeyError: history entry has no role key" :=
  rfl


theorem effQueryLoop_ok (es : List HEntry) (um : String)
    (h : ∀ e ∈ es, ∃ r c, e = HEntry.turn r c) (idxs : List Nat) :
    ∃ q, effectiveQueryLoop es um idxs = Except.ok q := by
  induction idxs with
  | nil => exact ⟨um, rfl⟩
  | cons i rest ih =>
    cases hg : es.get? i with
    | none =>
      exact ⟨um, by simp [effectiveQueryLoop, ← List.get?_eq_getElem?, hg]⟩
    | some e =>
      have hmem : e ∈ es := List.get?_mem hg
      obtain ⟨r, c, rfl⟩ := h e hmem
      cases hd : drFindFirst c.data with
      | some nm =>
        exact ⟨String.mk (stripChars nm) ++ " contact email phone",
          by simp [effectiveQueryLoop, ← List.get?_eq_getElem?, hg, hd]⟩
      | none =>
        obtain ⟨q, hq⟩ := ih
        exact ⟨q, by simp [effectiveQueryLoop, ← List.get?_eq_getElem?, hg, hd, hq]⟩

theorem effQuery_ok (es : List HEntry) (um : String)
    (h : ∀ e ∈ es, ∃ r c, e = HEntry.turn r c) :
    ∃ q, effective_query es um = Except.ok q := by
  unfold effective_query
  by_cases hc : (decide (2 ≤ es.length) && gen_is_followup um) = true
  · simp only [hc, if_true]
    exact effQueryLoop_ok es um h _
  · simp only [hc, if_false]
    exact ⟨um, rfl⟩

theorem genAnswer_turns (docs : List (String × ℚ))
    (genOut : Except String String) (e : HEntry) (es2 : List HEntry)
    (r c : String)
    (h : ∀ x ∈ e :: es2, ∃ a b, x = HEntry.turn a b)
    (hL : (e :: es2).getLast? = some (HEntry.turn r c)) :
    generate_answer docs genOut (HistoryVal.ofList (e :: es2)) =
      (if pyStrip (if r = "user" then c else "") = "" then
        Except.ok "Please ask a valid question."
      else
        match genOut with
        | .ok reply => .ok (String.mk (stripChars (removeThinkScan reply.data)))
        | .error msg => .ok ("Error generating answer: " ++ msg)) := by
  obtain ⟨q, hq⟩ :=
    effQuery_ok (e :: es2) (if r = "user" then c else "") h
  by_cases hb : pyStrip (if r = "user" then c else "") = ""
  · simp [generate_answer, hL, hb]
  · cases genOut with
    | ok reply => simp [generate_answer, hL, hb, hq]
    | error msg => simp [generate_answer, hL, hb, hq]

/-- Claim C7 (corrected): for every history value that is not a list, or
is an empty list, or is a non-empty list all of whose entries are
role/content records, `generate_answer` returns a string and never
propagates an exception: non-list or empty history yields
"Invalid chat history.", a last turn that is not a user turn or has
blank content yields "Please ask a valid question.", and a generation
failure is converted into "Error generating answer: ...".  (For list
entries that are not role/content records the function does propagate
an exception — see the counterexample.) -/
theorem C7_theorem (docs : List (String × ℚ))
    (genOut : Except String String) (es : List HEntry)
    (h : ∀ e ∈ es, ∃ r c, e = HEntry.turn r c) :
    (generate_answer docs genOut HistoryVal.notAList =
      Except.ok "Invalid chat history.") ∧
    (generate_answer docs genOut (HistoryVal.ofList []) =
      Except.ok "Invalid chat history.") ∧
    (es ≠ [] → ∃ s, generate_answer docs genOut (HistoryVal.ofList es) =
      Except.ok s) ∧
    (∀ r c, es.getLast? = some (HEntry.turn r c) →
      (r ≠ "user" ∨ pyStrip c = "") →
      generate_answer docs genOut (HistoryVal.ofList es) =
        Except.ok "Please ask a valid question.") ∧
    (∀ c msg, es.getLast? = some (HEntry.turn "user" c) →
      pyStrip c ≠ "" → genOut = Except.error msg →
      generate_answer docs genOut (HistoryVal.ofList es) =
        Except.ok ("Error generating answer: " ++ msg)) := by
  refine ⟨rfl, rfl, ?_, ?_, ?_⟩
  · intro hne
    cases es with
    | nil => exact absurd rfl hne
    | cons e es2 =>
      obtain ⟨r, c, hL⟩ := h _ (List.getLast_mem (l := e :: es2) (by simp))
      have hL? : (e :: es2).getLast? = some (HEntry.turn r c) := by
        rw [List.getLast?_eq_getLast (e :: es2) (by simp), hL]
      rw [genAnswer_turns docs genOut e es2 r c h hL?]
      by_cases hb : pyStrip (if r = "user" then c else "") = ""
      · exact ⟨_, by rw [if_pos hb]⟩
      · cases genOut with
        | ok reply => exact ⟨_, by rw [if_neg hb]⟩
        | error msg => exact ⟨_, by rw [if_neg hb]⟩
  · intro r c hL? hnu
    cases es with
    | nil => simp at hL?
    | cons e es2 =>
      rw [genAnswer_turns docs genOut e es2 r c h hL?]
      have hb : pyStrip (if r = "user" then c else "") = "" := by
        rcases hnu with hr | hc
        · rw [if_neg hr]; rfl
        · by_cases hru : r = "user"
          · rw [if_pos hru]; exact hc
          · rw [if_neg hru]; rfl
      rw [if_pos hb]
  · intro c msg hL? hb hg
    cases es with
    | nil => simp at hL?
    | cons e es2 =>
      rw [genAnswer_turns docs genOut e es2 "user" c h hL?]
      rw [if_neg (by simpa using hb), hg]

/-- Witness for C7_theorem on a concrete well-formed history and a
failing generation call. -/
theorem C7_witness :
    generate_answer [] (Except.error "boom")
        (HistoryVal.ofList [HEntry.turn "user" "hello there"]) =
      Except.ok ("Error generating answer: " ++ "boom") :=
  (C7_theorem [] (Except.error "boom") [HEntry.turn "user" "hello there"]
      (by
        intro e he
        simp only [List.mem_singleton] at he
        exact ⟨"user", "hello there", he⟩)).2.2.2.2
    "hello there" "boom" rfl (by decide) rfl

/-- Claim C2, counterexample: on a bulleted page the Chunker emits a
40-character first chunk — shorter than `MIN_CHUNK_CHARS = 60` and not
the final chunk of a fallback-packed sequence (the bullet strategy was
used and the chunk is not last), refuting the claimed bounds. -/
theorem C2_counterexample :
    smart_chunk_text
        "- aaaaaaaaaaaaaaaaaaaaaaaaaaaaaaaaaaaaaaaa\nbbbbbbbbbbbbbbbbbbbbbbbbbbbbbbbbbbbbbbbb" =
      ["aaaaaaaaaaaaaaaaaaaaaaaaaaaaaaaaaaaaaaaa",
       "bbbbbbbbbbbbbbbbbbbbbbbbbbbbbbbbbbbbbbbb"] ∧
    ("aaaaaaaaaaaaaaaaaaaaaaaaaaaaaaaaaaaaaaaa" : String).length <
      MIN_CHUNK_CHARS := by
  constructor
  · rfl
  · decide

/-- Claim C1, counterexample: build one chunk, clear with a failing file
deletion (in-memory state resets but the persisted files survive), then
load with a readable embeddings file but an unreadable corpus file.
`load_index` assigns `corpus_embeddings` before parsing `corpus.json`,
so the resulting state has one embedding row but an empty corpus: it is
neither "ready" nor the explicit empty state. -/
theorem C1_counterexample :
    readyB (runOps (fun _ => [1])
        [Op.build true
          [("a.txt",
            [(1,
              "aaaaaaaaaaaaaaaaaaaaaaaaaaaaaaaaaaaaaaaaaaaaaaaaaaaaaaaaaaaaaaaaaaaaaa")])],
         Op.clear true, Op.load LoadOutcome.corpusCorrupt]).1 = false ∧
    emptyB (runOps (fun _ => [1])
        [Op.build true
          [("a.txt",
            [(1,
              "aaaaaaaaaaaaaaaaaaaaaaaaaaaaaaaaaaaaaaaaaaaaaaaaaaaaaaaaaaaaaaaaaaaaaa")])],
         Op.clear true, Op.load LoadOutcome.corpusCorrupt]).1 = false := by
  constructor
  · decide
  · decide

/-- Claim C4, counterexample: for the contact query "email" and two
chunks with equal negative base similarity, boosting multiplies the
email chunk's score by 13/10 and thereby ranks it strictly LOWER than
the chunk without contact metadata, refuting "ranked strictly higher"
as universally stated. -/
theorem C4_counterexample :
    retrieve_relevant_chunks
        ⟨["email chunk", "plain chunk"],
         [⟨"f.txt", 1, "1_0", 16, true, false⟩,
          ⟨"f.txt", 1, "1_1", 11, false, false⟩],
         some [[1], [1]]⟩
        "email" [-(1 : ℚ)/2, -(1 : ℚ)/2] 5 =
      [("plain chunk", -(1 : ℚ)/2), ("email chunk", -(13 : ℚ)/20)] := by
  have hc : ret_is_contact_query "email" = true := by rfl
  have hb : applyBoost true
      [⟨"f.txt", 1, "1_0", 16, true, false⟩,
       ⟨"f.txt", 1, "1_1", 11, false, false⟩]
      [-(1 : ℚ)/2, -(1 : ℚ)/2] = [-(13 : ℚ)/20, -(1 : ℚ)/2] := by
    simp [applyBoost, List.enum, List.enumFrom, boostFactor]
    norm_num
  have ha : argsortDesc [-(13 : ℚ)/20, -(1 : ℚ)/2] = [1, 0] := by
    simp [argsortDesc, List.insertionSort, List.orderedInsert]
    norm_num
  simp [retrieve_relevant_chunks, hc, hb, ha, List.getD]


set_option maxRecDepth 8192 in
/-- Claim C6, counterexample: a page text in which the structured-record
delimiter "full name" occurs exactly twice, but mid-line rather than at
line starts.  The split pattern `(?:\n|^)\s*full name\s*[:\-]\s*` (with
`^` matching only at the very start, there being no `re.M` flag) finds
no split point, so the Chunker yields one chunk, not two. -/
theorem C6_counterexample :
    countOcc "full name".data
        (lowerChars
          ("xxxxxxxxxxxxxxxxxxxxxxxxx full name: yyyyyyyyyyyyyyyyyyyyyyyyyyyyyyyyyyyyyyyyyyyyyyyyyyyyyyyyyyyyyyyyyyyyyy full name: zzzzzzzzzzzzzzzzzzzzzzzzzzzzzzzzzzzzzzzzzzzzzzzzzzzzzzzzzzzzzzzzzzzzzz" :
            String).data) = 2 ∧
    (smart_chunk_text
        "xxxxxxxxxxxxxxxxxxxxxxxxx full name: yyyyyyyyyyyyyyyyyyyyyyyyyyyyyyyyyyyyyyyyyyyyyyyyyyyyyyyyyyyyyyyyyyyyyy full name: zzzzzzzzzzzzzzzzzzzzzzzzzzzzzzzzzzzzzzzzzzzzzzzzzzzzzzzzzzzzzzzzzzzzzz").length =
      1 := by
  constructor
  · decide
  · decide


theorem stripChars_length_le (cs : List Char) :
    (stripChars cs).length ≤ cs.length := by
  unfold stripChars
  calc (((cs.dropWhile isWs).reverse.dropWhile isWs).reverse).length
      = ((cs.dropWhile isWs).reverse.dropWhile isWs).length := by
        rw [List.length_reverse]
    _ ≤ (cs.dropWhile isWs).reverse.length := dropWhile_len_le _ _
    _ = (cs.dropWhile isWs).length := by rw [List.length_reverse]
    _ ≤ cs.length := dropWhile_len_le _ _

theorem pyStrip_length_le (s : String) : (pyStrip s).length ≤ s.length :=
  stripChars_length_le s.data

theorem packSents_bounds (sents : List String) :
    ∀ (chunks : List String) (current : String),
    (∀ c ∈ chunks,
      MIN_CHUNK_CHARS ≤ c.length ∧ c.length ≤ MAX_CHUNK_CHARS) →
    current.length ≤ MAX_CHUNK_CHARS →
    (∀ s ∈ sents, s.length ≤ MAX_CHUNK_CHARS) →
    ∀ c ∈ packSents chunks current sents,
      MIN_CHUNK_CHARS ≤ c.length ∧ c.length ≤ MAX_CHUNK_CHARS := by
  induction sents with
  | nil =>
    intro chunks current hch hcur _ c hc
    unfold packSents at hc
    by_cases hg : current ≠ "" && decide (MIN_CHUNK_CHARS ≤ current.length)
    · rw [if_pos hg] at hc
      rcases List.mem_append.mp hc with hmem | hmem
      · exact hch c hmem
      · simp only [List.mem_singleton] at hmem
        subst hmem
        have := of_decide_eq_true (Bool.and_elim_right hg)
        exact ⟨this, hcur⟩
    · rw [if_neg hg] at hc
      exact hch c hc
  | cons s rest ih =>
    intro chunks current hch hcur hs c hc
    unfold packSents at hc
    by_cases hle : current.length + s.length + 1 ≤ MAX_CHUNK_CHARS
    · rw [if_pos hle] at hc
      refine ih chunks (pyStrip (current ++ " " ++ s)) hch ?_
        (fun x hx => hs x (List.mem_cons_of_mem _ hx)) c hc
      calc (pyStrip (current ++ " " ++ s)).length
          ≤ (current ++ " " ++ s).length := pyStrip_length_le _
        _ = current.length + 1 + s.length := by
            have h1 : (" " : String).length = 1 := rfl
            simp only [String.length_append, h1]
        _ ≤ MAX_CHUNK_CHARS := by omega
    · rw [if_neg hle] at hc
      refine ih _ s ?_ (hs s (List.mem_cons_self _ _))
        (fun x hx => hs x (List.mem_cons_of_mem _ hx)) c hc
      by_cases hm : MIN_CHUNK_CHARS ≤ current.length
      · rw [if_pos hm]
        intro x hx
        rcases List.mem_append.mp hx with hmem | hmem
        · exact hch x hmem
        · simp only [List.mem_singleton] at hmem
          subst hmem
          exact ⟨hm, hcur⟩
      · rw [if_neg hm]
        exact hch

/-- Claim C2 (corrected): the `[MIN_CHUNK_CHARS, MAX_CHUNK_CHARS]`
bounds hold for the fallback sentence-packing stage — every chunk of
`fallback_sentence_split`, the final one included, has length at least
`MIN_CHUNK_CHARS` (given stripped input of at least that length) and at
most `MAX_CHUNK_CHARS` provided no single sentence exceeds
`MAX_CHUNK_CHARS`.  The other strategies guarantee no such bounds: the
bullet, heading and paragraph strategies keep any item longer than 30
characters (see the counterexample, a 40-character non-final bulleted
chunk), and the structured-record strategy imposes no upper bound. -/
theorem C2_theorem (t : String)
    (hmin : MIN_CHUNK_CHARS ≤ (pyStrip t).length)
    (hsents : ∀ s ∈ sentenceSplit t, s.length ≤ MAX_CHUNK_CHARS) :
    ∀ c ∈ fallback_sentence_split t,
      MIN_CHUNK_CHARS ≤ c.length ∧ c.length ≤ MAX_CHUNK_CHARS := by
  intro c hc
  unfold fallback_sentence_split at hc
  by_cases he : (packSents [] "" (sentenceSplit t)).isEmpty
  · rw [if_pos he] at hc
    simp only [List.mem_singleton] at hc
    subst hc
    have hlen : (String.mk ((stripChars t.data).take MAX_CHUNK_CHARS)).length
        = min MAX_CHUNK_CHARS (stripChars t.data).length := by
      simp [String.length]
    constructor
    · rw [hlen]
      refine le_min (by decide) ?_
      simpa [pyStrip, String.length] using hmin
    · rw [hlen]
      exact min_le_left _ _
  · rw [if_neg he] at hc
    exact packSents_bounds (sentenceSplit t) [] "" (by simp) (by decide)
      hsents c hc

/-- Witness for C2_theorem on a concrete four-sentence page: the single
chunk the fallback produces from it respects both bounds. -/
theorem C2_witness :
    MIN_CHUNK_CHARS ≤
        ("Hello there world. Second sentence is here! Third one now? And a fourth sentence to finish." : String).length ∧
      ("Hello there world. Second sentence is here! Third one now? And a fourth sentence to finish." : String).length ≤ MAX_CHUNK_CHARS :=
  C2_theorem
    "Hello there world. Second sentence is here! Third one now? And a fourth sentence to finish."
    (by decide) (by decide)
    "Hello there world. Second sentence is here! Third one now? And a fourth sentence to finish."
    (by decide)


theorem enumFrom_map_get? {α β : Type} (f : Nat × α → β) :
    ∀ (l : List α) (k i : Nat),
      ((l.enumFrom k).map f).get? i = (l.get? i).map (fun a => f (k + i, a))
  | [], _, _ => by simp
  | a :: l, k, 0 => by simp
  | a :: l, k, i + 1 => by
    have := enumFrom_map_get? f l (k + 1) i
    simpa [Nat.add_assoc, Nat.add_comm 1 i] using this

theorem applyBoost_get? (metas : List Meta) (sims : List ℚ) (i : Nat)
    (m : Meta) (hm : metas.get? i = some m) (hne : metas ≠ []) :
    (applyBoost true metas sims).get? i =
      (sims.get? i).map (fun s =>
        if m.contains_email || m.contains_phone then s * boostFactor
        else s) := by
  unfold applyBoost
  rw [if_pos (by simp [List.isEmpty_iff, hne])]
  rw [List.enum, enumFrom_map_get?]
  simp [← List.get?_eq_getElem?, hm]

theorem applyBoost_length (b : Bool) (metas : List Meta) (sims : List ℚ) :
    (applyBoost b metas sims).length = sims.length := by
  unfold applyBoost
  by_cases h : b && !metas.isEmpty
  · rw [if_pos h]; simp [List.enum]
  · rw [if_neg h]

theorem argsortDesc_mem (sims : List ℚ) (i : Nat) :
    i ∈ argsortDesc sims ↔ i < sims.length := by
  unfold argsortDesc
  rw [(List.perm_insertionSort _ _).mem_iff]
  exact List.mem_range

theorem argsortDesc_pairwise (sims : List ℚ) :
    (argsortDesc sims).Pairwise
      (fun i j => sims.getD j 0 ≤ sims.getD i 0) := by
  haveI : IsTotal Nat (fun i j => sims.getD j 0 ≤ sims.getD i 0) :=
    ⟨fun _ _ => le_total _ _⟩
  haveI : IsTrans Nat (fun i j => sims.getD j 0 ≤ sims.getD i 0) :=
    ⟨fun _ _ _ h1 h2 => le_trans h2 h1⟩
  exact List.sorted_insertionSort _ _

theorem indexOf_lt_of_key_gt (key : Nat → ℚ) :
    ∀ (l : List Nat),
      l.Pairwise (fun i j => key j ≤ key i) → ∀ (i j : Nat),
      i ∈ l → j ∈ l → key j < key i → l.indexOf i < l.indexOf j := by
  intro l
  induction l with
  | nil => intro _ i j hi; simp at hi
  | cons x xs ih =>
    intro hp i j hi hj hij
    rcases List.pairwise_cons.mp hp with ⟨hx, hxs⟩
    by_cases hxi : x = i
    · subst hxi
      have hji : j ≠ x := fun h => by subst h; exact lt_irrefl _ hij
      rw [List.indexOf_cons_self]
      rw [List.indexOf_cons_ne _ (Ne.symm hji)]
      exact Nat.succ_pos _
    · have hixs : i ∈ xs := by
        rcases List.mem_cons.mp hi with h | h
        · exact absurd h.symm hxi
        · exact h
      by_cases hxj : x = j
      · subst hxj
        have := hx i hixs
        exact absurd this (not_le.mpr hij)
      · have hjxs : j ∈ xs := by
          rcases List.mem_cons.mp hj with h | h
          · exact absurd h.symm hxj
          · exact h
        rw [List.indexOf_cons_ne _ hxi, List.indexOf_cons_ne _ hxj]
        exact Nat.succ_lt_succ (ih hxs i j hixs hjxs hij)

/-- Claim C4 (corrected): for a contact-classified query and two indexed
chunks with equal base cosine similarity `s`, where one has
`contains_email = true` and the other carries no contact metadata, the
boosting stage of `retrieve_relevant_chunks` gives the email chunk the
final score `s * (13/10)` — exactly the boost factor times the other
chunk's final score — and the ranking stage places it strictly higher
PROVIDED the shared base similarity is positive; for `s = 0` the two
final scores tie, and for `s < 0` the boost strictly lowers the email
chunk (see the counterexample). -/
theorem C4_theorem (metas : List Meta) (query : String) (sims : List ℚ)
    (i j : Nat) (mi mj : Meta) (s : ℚ)
    (hcq : ret_is_contact_query query = true)
    (hmi : metas.get? i = some mi) (hie : mi.contains_email = true)
    (hmj : metas.get? j = some mj) (hje : mj.contains_email = false)
    (hjp : mj.contains_phone = false)
    (hsi : sims.get? i = some s) (hsj : sims.get? j = some s)
    (hpos : 0 < s) :
    (applyBoost (ret_is_contact_query query) metas sims).get? i =
      some (s * boostFactor) ∧
    (applyBoost (ret_is_contact_query query) metas sims).get? j = some s ∧
    (argsortDesc
        (applyBoost (ret_is_contact_query query) metas sims)).indexOf i <
      (argsortDesc
        (applyBoost (ret_is_contact_query query) metas sims)).indexOf j := by
  have hne : metas ≠ [] := by
    intro h
    rw [h] at hmi
    simp at hmi
  rw [hcq]
  have hgi : (applyBoost true metas sims).get? i = some (s * boostFactor) := by
    rw [applyBoost_get? metas sims i mi hmi hne, hsi]
    simp [hie]
  have hgj : (applyBoost true metas sims).get? j = some s := by
    rw [applyBoost_get? metas sims j mj hmj hne, hsj]
    simp [hje, hjp]
  refine ⟨hgi, hgj, ?_⟩
  have hlen : (applyBoost true metas sims).length = sims.length :=
    applyBoost_length true metas sims
  have hil : i < sims.length := by
    rcases List.get?_eq_some.mp hsi with ⟨h, _⟩
    exact h
  have hjl : j < sims.length := by
    rcases List.get?_eq_some.mp hsj with ⟨h, _⟩
    exact h
  have hdi : (applyBoost true metas sims).getD i 0 = s * boostFactor := by
    simp [List.getD, ← List.get?_eq_getElem?, hgi]
  have hdj : (applyBoost true metas sims).getD j 0 = s := by
    simp [List.getD, ← List.get?_eq_getElem?, hgj]
  refine indexOf_lt_of_key_gt
    (fun n => (applyBoost true metas sims).getD n 0) _
    (argsortDesc_pairwise _) i j
    ((argsortDesc_mem _ _).mpr (by omega))
    ((argsortDesc_mem _ _).mpr (by omega)) ?_
  show (applyBoost true metas sims).getD j 0 <
    (applyBoost true metas sims).getD i 0
  rw [hdi, hdj, boostFactor]
  nlinarith

/-- Witness for C4_theorem on a concrete two-chunk index with shared
positive base similarity 1/2. -/
theorem C4_witness :
    (applyBoost (ret_is_contact_query "email")
        [⟨"f.txt", 1, "1_0", 16, true, false⟩,
         ⟨"f.txt", 1, "1_1", 11, false, false⟩]
        [(1 : ℚ)/2, (1 : ℚ)/2]).get? 0 = some ((1 : ℚ)/2 * boostFactor) ∧
    (applyBoost (ret_is_contact_query "email")
        [⟨"f.txt", 1, "1_0", 16, true, false⟩,
         ⟨"f.txt", 1, "1_1", 11, false, false⟩]
        [(1 : ℚ)/2, (1 : ℚ)/2]).get? 1 = some ((1 : ℚ)/2) ∧
    (argsortDesc (applyBoost (ret_is_contact_query "email")
        [⟨"f.txt", 1, "1_0", 16, true, false⟩,
         ⟨"f.txt", 1, "1_1", 11, false, false⟩]
        [(1 : ℚ)/2, (1 : ℚ)/2])).indexOf 0 <
      (argsortDesc (applyBoost (ret_is_contact_query "email")
        [⟨"f.txt", 1, "1_0", 16, true, false⟩,
         ⟨"f.txt", 1, "1_1", 11, false, false⟩]
        [(1 : ℚ)/2, (1 : ℚ)/2])).indexOf 1 :=
  C4_theorem
    [⟨"f.txt", 1, "1_0", 16, true, false⟩,
     ⟨"f.txt", 1, "1_1", 11, false, false⟩]
    "email" [(1 : ℚ)/2, (1 : ℚ)/2] 0 1
    ⟨"f.txt", 1, "1_0", 16, true, false⟩
    ⟨"f.txt", 1, "1_1", 11, false, false⟩ ((1 : ℚ)/2)
    rfl rfl rfl rfl rfl rfl rfl rfl (by norm_num)


theorem step_inv (embed : String → Vec) (st : Store) (dk : Disk) (op : Op)
    (hop : goodLoadB op = true)
    (h1 : readyB st = true ∨ emptyB st = true) (h2 : diskOkB dk = true) :
    (readyB (step embed (st, dk) op).1 = true ∨
      emptyB (step embed (st, dk) op).1 = true) ∧
    diskOkB (step embed (st, dk) op).2 = true := by
  cases op with
  | build fe files =>
    cases fe with
    | false => exact ⟨Or.inr rfl, h2⟩
    | true =>
      show (readyB (load_documents_and_build_index embed true files st dk).1
          = true ∨
        emptyB (load_documents_and_build_index embed true files st dk).1
          = true) ∧
        diskOkB (load_documents_and_build_index embed true files st dk).2
          = true
      by_cases hcd : (buildCorpusData files).isEmpty
      · have hval : load_documents_and_build_index embed true files st dk =
            (emptyStore, dk) := by
          simp [load_documents_and_build_index, hcd]
        rw [hval]
        exact ⟨Or.inr rfl, h2⟩
      · have hval : load_documents_and_build_index embed true files st dk =
            (⟨(buildCorpusData files).map Prod.fst,
              (buildCorpusData files).map Prod.snd,
              some (((buildCorpusData files).map Prod.fst).map embed)⟩,
             ⟨some (((buildCorpusData files).map Prod.fst).map embed),
              some (buildCorpusData files)⟩) := by
          simp [load_documents_and_build_index, hcd]
        rw [hval]
        refine ⟨Or.inl ?_, ?_⟩
        · simp [readyB, List.length_map]
        · simp [diskOkB, List.length_map]
  | load out =>
    rcases dk with ⟨ef, cf⟩
    show (readyB (load_index st ⟨ef, cf⟩ out) = true ∨
      emptyB (load_index st ⟨ef, cf⟩ out) = true) ∧ diskOkB ⟨ef, cf⟩ = true
    refine ⟨?_, h2⟩
    cases ef with
    | none => cases cf <;> exact h1
    | some embs =>
      cases cf with
      | none => exact h1
      | some data =>
        have hlen : embs.length = data.length := by
          have := h2
          simp [diskOkB] at this
          exact this
        cases out with
        | success =>
          left
          simp [load_index, readyB, List.length_map, hlen]
        | embCorrupt => exact h1
        | corpusCorrupt => simp [goodLoadB] at hop
        | metaCorrupt => simp [goodLoadB] at hop
  | clear df =>
    refine ⟨Or.inr rfl, ?_⟩
    cases df with
    | false => exact rfl
    | true => exact h2

theorem foldl_step_inv (embed : String → Vec) (ops : List Op) :
    ∀ (st : Store) (dk : Disk), (∀ op ∈ ops, goodLoadB op = true) →
    (readyB st = true ∨ emptyB st = true) → diskOkB dk = true →
    (readyB (ops.foldl (step embed) (st, dk)).1 = true ∨
      emptyB (ops.foldl (step embed) (st, dk)).1 = true) ∧
    diskOkB (ops.foldl (step embed) (st, dk)).2 = true := by
  induction ops with
  | nil => intro st dk _ h1 h2; exact ⟨h1, h2⟩
  | cons op rest ih =>
    intro st dk h h1 h2
    obtain ⟨ha, hb⟩ :=
      step_inv embed st dk op (h op (List.mem_cons_self _ _)) h1 h2
    have hrec := ih (step embed (st, dk) op).1 (step embed (st, dk) op).2
      (fun o ho => h o (List.mem_cons_of_mem _ ho)) ha hb
    simpa using hrec

/-- Claim C1 (corrected): every state of the Index reachable by
completed build, load, and clear operations is either "ready"
(`len(corpus) = len(corpus_metadata) = row_count(corpus_embeddings)`)
or the explicit empty state, PROVIDED every completed load either finds
the persisted files absent, fails before assigning anything (embeddings
file unreadable), or parses both persisted files.  A load whose
embeddings file parses but whose corpus file does not (or whose entries
lack keys) leaves the Index partially populated — `corpus_embeddings`
assigned, `corpus`/`corpus_metadata` stale — because `load_index`
assigns the globals one at a time and its `except` keeps partial
assignments (see the counterexample). -/
theorem C1_theorem (embed : String → Vec) (ops : List Op)
    (h : ∀ op ∈ ops, goodLoadB op = true) :
    readyB (runOps embed ops).1 = true ∨
      emptyB (runOps embed ops).1 = true :=
  (foldl_step_inv embed ops emptyStore emptyDisk h (Or.inr rfl) rfl).1

/-- Witness for C1_theorem on a concrete operation sequence: build one
chunk, reload from the persisted files, clear. -/
theorem C1_witness :
    readyB (runOps (fun _ => [])
        [Op.build true
          [("a.txt",
            [(1,
              "aaaaaaaaaaaaaaaaaaaaaaaaaaaaaaaaaaaaaaaaaaaaaaaaaaaaaaaaaaaaaaaaaaaaaa")])],
         Op.load LoadOutcome.success, Op.clear false]).1 = true ∨
      emptyB (runOps (fun _ => [])
        [Op.build true
          [("a.txt",
            [(1,
              "aaaaaaaaaaaaaaaaaaaaaaaaaaaaaaaaaaaaaaaaaaaaaaaaaaaaaaaaaaaaaaaaaaaaaa")])],
         Op.load LoadOutcome.success, Op.clear false]).1 = true :=
  C1_theorem (fun _ => []) _ (by decide)




theorem pref_app_self (pat z : List Char) :
    pat.isPrefixOf (pat ++ z) = true := by
  induction pat with
  | nil => simp [List.isPrefixOf]
  | cons p ps ih => simp [List.isPrefixOf, ih]

theorem isPrefixOf_append_imp (pat : List Char) :
    ∀ (t y : List Char), pat.isPrefixOf (t ++ y) = true →
      (pat.take t.length).isPrefixOf t = true := by
  induction pat with
  | nil => intro t y _; simp
  | cons p ps ih =>
    intro t y h
    cases t with
    | nil => simp
    | cons c ts =>
      simp only [List.cons_append, List.isPrefixOf_cons₂] at h
      rcases Bool.and_eq_true_iff.mp h with ⟨h1, h2⟩
      simp only [List.length_cons, List.take_succ_cons,
        List.isPrefixOf_cons₂]
      exact Bool.and_eq_true_iff.mpr ⟨h1, ih ts y h2⟩

theorem hasSubstr_concat_skip (pat : List Char) :
    ∀ (t y : List Char),
      (∀ u ∈ t.tails, u ≠ [] → (pat.take u.length).isPrefixOf u = false) →
      hasSubstr pat (t ++ y) = hasSubstr pat y := by
  intro t
  induction t with
  | nil => intro y _; simp
  | cons c ts ih =>
    intro y h
    show (prefAt pat (c :: ts ++ y) || hasSubstr pat (ts ++ y)) = _
    have hp : prefAt pat ((c :: ts) ++ y) = false := by
      by_contra hcon
      have htrue : pat.isPrefixOf ((c :: ts) ++ y) = true := by
        unfold prefAt at hcon
        exact eq_true_of_ne_false hcon
      have := isPrefixOf_append_imp pat (c :: ts) y htrue
      rw [h (c :: ts) (by simp) (by simp)] at this
      exact Bool.false_ne_true this
    rw [List.cons_append] at hp ⊢
    rw [hp, Bool.false_or]
    exact ih y (fun u hu hne => h u (by simp [List.tails_cons, hu]) hne)

theorem hasSubstr_replicate_skip (pat : List Char) (p a : Char)
    (hp : pat.head? = some p) (hpa : p ≠ a) (rest : List Char) :
    ∀ k, hasSubstr pat (List.replicate k a ++ rest) = hasSubstr pat rest := by
  intro k
  induction k with
  | zero => simp
  | succ k ih =>
    rw [List.replicate_succ, List.cons_append]
    show (prefAt pat (a :: (List.replicate k a ++ rest)) || _) = _
    have hpf : prefAt pat (a :: (List.replicate k a ++ rest)) = false := by
      cases pat with
      | nil => simp at hp
      | cons q qs =>
        simp only [Option.some.injEq, List.head?_cons] at hp
        subst hp
        simp [prefAt, List.isPrefixOf_cons₂, beq_eq_false_iff_ne, hpa]
    rw [hpf, Bool.false_or]
    exact ih

theorem countOccGo_pos (pat : List Char) (hne : pat ≠ []) :
    ∀ (cs : List Char) (k : Nat),
      pat.isPrefixOf (cs.drop k) = true → 1 ≤ countOccGo pat 0 cs := by
  intro cs
  induction cs with
  | nil =>
    intro k h
    rw [List.drop_nil] at h
    cases pat with
    | nil => exact absurd rfl hne
    | cons p ps => simp at h
  | cons c rest ih =>
    intro k h
    have heq : countOccGo pat 0 (c :: rest) =
        if pat.isPrefixOf (c :: rest) = true then
          1 + countOccGo pat (pat.length - 1) rest
        else countOccGo pat 0 rest := rfl
    by_cases hpf : pat.isPrefixOf (c :: rest) = true
    · rw [heq, if_pos hpf]
      omega
    · rw [heq, if_neg hpf]
      cases k with
      | zero => rw [List.drop_zero] at h; exact absurd h hpf
      | succ k2 => exact ih k2 (by simpa using h)

theorem fnSplitGo_run (a : Char) (ha : a ≠ '\n') :
    ∀ (k : Nat) (acc rest : List Char),
      fnSplitGo acc 0 (List.replicate k a ++ rest) =
        fnSplitGo (List.replicate k a ++ acc) 0 rest := by
  intro k
  induction k with
  | zero => intro acc rest; simp
  | succ k ih =>
    intro acc rest
    rw [List.replicate_succ, List.cons_append]
    have heq : fnSplitGo acc 0 (a :: (List.replicate k a ++ rest)) =
        fnSplitGo (a :: acc) 0 (List.replicate k a ++ rest) := by
      show (if a = '\n' then _ else fnSplitGo (a :: acc) 0 _) = _
      rw [if_neg ha]
    rw [heq, ih (a :: acc) rest]
    congr 1
    calc List.replicate k a ++ a :: acc
        = (List.replicate k a ++ [a]) ++ acc := by simp
      _ = List.replicate (k + 1) a ++ acc := by
          rw [← List.replicate_succ']
      _ = a :: (List.replicate k a ++ acc) := by
          rw [List.replicate_succ, List.cons_append]

theorem fnp_data :
    ("Full Name: " : String).data =
      ['F', 'u', 'l', 'l', ' ', 'N', 'a', 'm', 'e', ':', ' '] := rfl

theorem fnDelimAt_fnp (c : Char) (hc : isWs c = false) (z : List Char) :
    fnDelimAt (("Full Name: " : String).data ++ c :: z) = some 11 := by
  rw [fnp_data]
  simp only [List.cons_append, List.nil_append]
  unfold fnDelimAt
  have hc2 := hc
  simp only [isWs, Bool.or_eq_false_iff, decide_eq_false_iff_not] at hc2
  simp [wsRunLen, ciPrefAt, lowerChars, isWs, List.takeWhile, hc2]

theorem fnSplitGo_newline (acc rest : List Char) (n : Nat)
    (h : fnDelimAt rest = some n) :
    fnSplitGo acc 0 ('\n' :: rest) = acc.reverse :: fnSplitGo [] n rest := by
  have hstep : fnSplitGo acc 0 ('\n' :: rest) =
      match fnDelimAt rest with
      | some k => acc.reverse :: fnSplitGo [] k rest
      | none => fnSplitGo ('\n' :: acc) 0 rest := rfl
  rw [hstep, h]

theorem reverse_cons_replicate (k : Nat) (a : Char) :
    (a :: List.replicate k a).reverse = a :: List.replicate k a := by
  rw [← List.replicate_succ]
  rw [List.reverse_replicate]

theorem fnSplit_family (n2 m2 : Nat) :
    fnSplit (("Full Name: " : String).data ++ 'a' ::
        (List.replicate n2 'a' ++ '\n' ::
          (("Full Name: " : String).data ++ 'b' :: List.replicate m2 'b'))) =
      [[], 'a' :: List.replicate n2 'a', 'b' :: List.replicate m2 'b'] := by
  have h1 : fnDelimAt (("Full Name: " : String).data ++ 'a' ::
      (List.replicate n2 'a' ++ '\n' ::
        (("Full Name: " : String).data ++ 'b' :: List.replicate m2 'b'))) =
      some 11 := fnDelimAt_fnp 'a' (by decide) _
  have h2 : fnDelimAt (("Full Name: " : String).data ++ 'b' ::
      List.replicate m2 'b') = some 11 := fnDelimAt_fnp 'b' (by decide) _
  rw [fnp_data] at h1 h2 ⊢
  simp only [List.cons_append, List.nil_append] at h1 h2 ⊢
  unfold fnSplit
  rw [h1]
  show [] :: fnSplitGo [] 0 ('a' ::
      (List.replicate n2 'a' ++ '\n' :: ('F' :: 'u' :: 'l' :: 'l' :: ' ' ::
        'N' :: 'a' :: 'm' :: 'e' :: ':' :: ' ' :: 'b' ::
          List.replicate m2 'b'))) = _
  have hrun1 := fnSplitGo_run 'a' (by decide) (n2 + 1) []
    ('\n' :: ('F' :: 'u' :: 'l' :: 'l' :: ' ' ::
      'N' :: 'a' :: 'm' :: 'e' :: ':' :: ' ' :: 'b' :: List.replicate m2 'b'))
  simp only [List.replicate_succ, List.cons_append, List.append_nil]
    at hrun1
  rw [hrun1]
  have h2b : fnDelimAt ('F' :: 'u' :: 'l' :: 'l' :: ' ' :: 'N' :: 'a' ::
      'm' :: 'e' :: ':' :: ' ' :: 'b' :: List.replicate m2 'b') = some 11 :=
    h2
  rw [fnSplitGo_newline _ _ 11 h2b]
  rw [reverse_cons_replicate n2 'a']
  show [] :: ('a' :: List.replicate n2 'a') ::
    fnSplitGo [] 0 ('b' :: List.replicate m2 'b') = _
  have hrun2 := fnSplitGo_run 'b' (by decide) (m2 + 1) [] []
  simp only [List.replicate_succ, List.cons_append, List.append_nil]
    at hrun2
  rw [hrun2]
  show [[], 'a' :: List.replicate n2 'a',
    ('b' :: List.replicate m2 'b').reverse] = _
  rw [reverse_cons_replicate m2 'b']

theorem dropWhile_eq_self_of_head (p : Char → Bool) (cs : List Char)
    (h : ∀ c, cs.head? = some c → p c = false) : cs.dropWhile p = cs := by
  cases cs with
  | nil => rfl
  | cons c rest =>
    rw [List.dropWhile_cons, h c rfl]
    simp

theorem stripChars_eq_self (cs : List Char)
    (h1 : ∀ c, cs.head? = some c → isWs c = false)
    (h2 : ∀ c, cs.getLast? = some c → isWs c = false) :
    stripChars cs = cs := by
  unfold stripChars
  rw [dropWhile_eq_self_of_head _ _ h1]
  rw [dropWhile_eq_self_of_head _ _ (by
    intro c hc
    rw [List.head?_reverse] at hc
    exact h2 c hc)]
  exact List.reverse_reverse cs

theorem getLast?_replicate_succ (k : Nat) (a : Char) :
    (List.replicate (k + 1) a).getLast? = some a := by
  rw [List.replicate_succ']
  exact List.getLast?_concat _

theorem stripChars_run (a : Char) (ha : isWs a = false) (k : Nat) :
    stripChars (a :: List.replicate k a) = a :: List.replicate k a := by
  refine stripChars_eq_self _ ?_ ?_
  · intro c hc
    simp only [List.head?_cons, Option.some.injEq] at hc
    subst hc; exact ha
  · intro c hc
    rw [show a :: List.replicate k a = List.replicate (k + 1) a from
      (List.replicate_succ a k).symm, getLast?_replicate_succ] at hc
    simp only [Option.some.injEq] at hc
    subst hc; exact ha

theorem collapseWs_cons_not_ws (c d : Char) (rest : List Char)
    (hc : isWs c = false) :
    collapseWs (c :: d :: rest) = c :: collapseWs (d :: rest) := by
  have hstep : collapseWs (c :: d :: rest) =
      if (isWs c && isWs d) = true then collapseWs (d :: rest)
      else (if isWs c = true then ' ' else c) :: collapseWs (d :: rest) := by
    rfl
  rw [hstep, hc]
  simp

theorem collapseWs_ws_not_ws (c d : Char) (rest : List Char)
    (hc : isWs c = true) (hd : isWs d = false) :
    collapseWs (c :: d :: rest) = ' ' :: collapseWs (d :: rest) := by
  have hstep : collapseWs (c :: d :: rest) =
      if (isWs c && isWs d) = true then collapseWs (d :: rest)
      else (if isWs c = true then ' ' else c) :: collapseWs (d :: rest) := by
    rfl
  rw [hstep, hc, hd]
  simp

theorem collapseWs_all_not_ws (cs : List Char)
    (h : ∀ c ∈ cs, isWs c = false) : collapseWs cs = cs := by
  induction cs with
  | nil => rfl
  | cons c rest ih =>
    cases rest with
    | nil =>
      unfold collapseWs
      rw [h c (by simp)]
      simp
    | cons d rest2 =>
      rw [collapseWs_cons_not_ws c d rest2 (h c (by simp))]
      rw [ih (fun x hx => h x (List.mem_cons_of_mem _ hx))]

theorem collapseWs_run (a : Char) (ha : isWs a = false) (k : Nat) :
    collapseWs (a :: List.replicate k a) = a :: List.replicate k a := by
  refine collapseWs_all_not_ws _ ?_
  intro c hc
  rcases List.mem_cons.mp hc with h | h
  · subst h; exact ha
  · rw [List.eq_of_mem_replicate h]; exact ha

theorem normalize_fn_chunk (c : Char) (hc : isWs c = false) (k : Nat) :
    normalize_whitespace ("Full Name: " ++ String.mk (c :: List.replicate k c)) =
      "Full Name: " ++ String.mk (c :: List.replicate k c) := by
  show String.mk (stripChars (collapseWs
    ('F' :: 'u' :: 'l' :: 'l' :: ' ' :: 'N' :: 'a' :: 'm' :: 'e' :: ':' :: ' ' ::
      c :: List.replicate k c))) = _
  rw [collapseWs_cons_not_ws 'F' 'u' _ (by decide),
    collapseWs_cons_not_ws 'u' 'l' _ (by decide),
    collapseWs_cons_not_ws 'l' 'l' _ (by decide),
    collapseWs_cons_not_ws 'l' ' ' _ (by decide),
    collapseWs_ws_not_ws ' ' 'N' _ (by decide) (by decide),
    collapseWs_cons_not_ws 'N' 'a' _ (by decide),
    collapseWs_cons_not_ws 'a' 'm' _ (by decide),
    collapseWs_cons_not_ws 'm' 'e' _ (by decide),
    collapseWs_cons_not_ws 'e' ':' _ (by decide),
    collapseWs_cons_not_ws ':' ' ' _ (by decide),
    collapseWs_ws_not_ws ' ' c _ (by decide) hc,
    collapseWs_run c hc k]
  have hlast : ('F' :: 'u' :: 'l' :: 'l' :: ' ' :: 'N' :: 'a' :: 'm' :: 'e' ::
      ':' :: ' ' :: c :: List.replicate k c).getLast? = some c := by
    rw [show ('F' :: 'u' :: 'l' :: 'l' :: ' ' :: 'N' :: 'a' :: 'm' :: 'e' ::
        ':' :: ' ' :: c :: List.replicate k c) =
      ['F', 'u', 'l', 'l', ' ', 'N', 'a', 'm', 'e', ':', ' '] ++
        (c :: List.replicate k c) from rfl]
    rw [List.getLast?_append]
    rw [show c :: List.replicate k c = List.replicate (k + 1) c from
      (List.replicate_succ c k).symm, getLast?_replicate_succ]
    rfl
  rw [stripChars_eq_self _
    (by intro x hx; simp only [List.head?_cons, Option.some.injEq] at hx;
        subst hx; decide)
    (by intro x hx; rw [hlast] at hx;
        simp only [Option.some.injEq] at hx; subst hx; exact hc)]
  rfl

theorem lfnp_data :
    ("full name: " : String).data =
      ("full name" : String).data ++ [':', ' '] := rfl

theorem no_fm_family (n2 m2 : Nat) :
    hasSubstr ("faculty member" : String).data
      (("full name: " : String).data ++ 'a' :: (List.replicate n2 'a' ++
        '\n' :: (("full name: " : String).data ++ 'b' ::
          List.replicate m2 'b'))) = false := by
  rw [show (("full name: " : String).data ++ 'a' :: (List.replicate n2 'a' ++
        '\n' :: (("full name: " : String).data ++ 'b' ::
          List.replicate m2 'b'))) =
      ("full name: " : String).data ++ (List.replicate (n2 + 1) 'a' ++
        (['\n'] ++ (("full name: " : String).data ++
          (List.replicate (m2 + 1) 'b' ++ [])))) from by
    rw [List.replicate_succ, List.replicate_succ]
    simp]
  rw [hasSubstr_concat_skip _ _ _ (by decide)]
  rw [hasSubstr_replicate_skip ("faculty member" : String).data 'f' 'a' rfl (by decide)]
  rw [hasSubstr_concat_skip _ ['\n'] _ (by decide)]
  rw [hasSubstr_concat_skip _ _ _ (by decide)]
  rw [hasSubstr_replicate_skip ("faculty member" : String).data 'f' 'b' rfl (by decide)]
  decide

theorem count_family (n2 m2 : Nat) :
    2 ≤ countOcc ("full name" : String).data
      (("full name: " : String).data ++ 'a' :: (List.replicate n2 'a' ++
        '\n' :: (("full name: " : String).data ++ 'b' ::
          List.replicate m2 'b'))) := by
  have hstart : countOcc ("full name" : String).data
      (("full name: " : String).data ++ 'a' :: (List.replicate n2 'a' ++
        '\n' :: (("full name: " : String).data ++ 'b' ::
          List.replicate m2 'b'))) =
      1 + countOccGo ("full name" : String).data 0
        (':' :: ' ' :: 'a' :: (List.replicate n2 'a' ++
          '\n' :: (("full name: " : String).data ++ 'b' ::
            List.replicate m2 'b'))) := by
    have hpre : ("full name" : String).data.isPrefixOf
        (("full name: " : String).data ++ 'a' :: (List.replicate n2 'a' ++
          '\n' :: (("full name: " : String).data ++ 'b' ::
            List.replicate m2 'b'))) = true := by
      rw [lfnp_data, List.append_assoc]
      exact pref_app_self _ _
    have heq : countOcc ("full name" : String).data
        (("full name: " : String).data ++ 'a' :: (List.replicate n2 'a' ++
          '\n' :: (("full name: " : String).data ++ 'b' ::
            List.replicate m2 'b'))) =
        countOccGo ("full name" : String).data 0
        ('f' :: ("ull name: " : String).data ++ 'a' :: (List.replicate n2 'a' ++
          '\n' :: (("full name: " : String).data ++ 'b' ::
            List.replicate m2 'b'))) := rfl
    rw [heq]
    have hstep : countOccGo ("full name" : String).data 0
        ('f' :: ("ull name: " : String).data ++ 'a' :: (List.replicate n2 'a' ++
          '\n' :: (("full name: " : String).data ++ 'b' ::
            List.replicate m2 'b'))) =
        if ("full name" : String).data.isPrefixOf
            ('f' :: ("ull name: " : String).data ++ 'a' ::
              (List.replicate n2 'a' ++ '\n' ::
                (("full name: " : String).data ++ 'b' ::
                  List.replicate m2 'b'))) = true then
          1 + countOccGo ("full name" : String).data
            (("full name" : String).data.length - 1)
            (("ull name: " : String).data ++ 'a' :: (List.replicate n2 'a' ++
              '\n' :: (("full name: " : String).data ++ 'b' ::
                List.replicate m2 'b')))
        else countOccGo ("full name" : String).data 0
            (("ull name: " : String).data ++ 'a' :: (List.replicate n2 'a' ++
              '\n' :: (("full name: " : String).data ++ 'b' ::
                List.replicate m2 'b'))) := rfl
    rw [hstep, if_pos (by exact hpre)]
    rfl
  rw [hstart]
  have hocc : 1 ≤ countOccGo ("full name" : String).data 0
      (':' :: ' ' :: 'a' :: (List.replicate n2 'a' ++
        '\n' :: (("full name: " : String).data ++ 'b' ::
          List.replicate m2 'b'))) := by
    refine countOccGo_pos _ (by decide) _ (n2 + 4) ?_
    have hdrop : (':' :: ' ' :: 'a' :: (List.replicate n2 'a' ++
        '\n' :: (("full name: " : String).data ++ 'b' ::
          List.replicate m2 'b'))).drop (n2 + 4) =
        ("full name: " : String).data ++ 'b' :: List.replicate m2 'b' := by
      rw [show (':' :: ' ' :: 'a' :: (List.replicate n2 'a' ++
          '\n' :: (("full name: " : String).data ++ 'b' ::
            List.replicate m2 'b'))).drop (n2 + 4) =
        (List.replicate n2 'a' ++ '\n' :: (("full name: " : String).data ++
          'b' :: List.replicate m2 'b')).drop (n2 + 1) from rfl]
      rw [List.drop_append_eq_append_drop]
      rw [List.drop_eq_nil_of_le (by simp)]
      simp
    rw [hdrop, lfnp_data, List.append_assoc]
    exact pref_app_self _ _
  omega

theorem lower_concat (x y : List Char) :
    lowerChars (x ++ y) = lowerChars x ++ lowerChars y := by
  unfold lowerChars
  exact List.map_append _ x y

theorem lower_cons (c : Char) (rest : List Char) :
    lowerChars (c :: rest) = Char.toLower c :: lowerChars rest := rfl

theorem lower_replicate (k : Nat) (c : Char) :
    lowerChars (List.replicate k c) = List.replicate k (Char.toLower c) := by
  unfold lowerChars
  exact List.map_replicate

theorem lower_family (n2 m2 : Nat) :
    lowerChars (("Full Name: " : String).data ++ 'a' ::
        (List.replicate n2 'a' ++ '\n' :: (("Full Name: " : String).data ++
          'b' :: List.replicate m2 'b'))) =
      ("full name: " : String).data ++ 'a' :: (List.replicate n2 'a' ++
        '\n' :: (("full name: " : String).data ++ 'b' ::
          List.replicate m2 'b')) := by
  have hfn : lowerChars ("Full Name: " : String).data =
      ("full name: " : String).data := by decide
  have ha : Char.toLower 'a' = 'a' := rfl
  have hb : Char.toLower 'b' = 'b' := rfl
  have hnl : Char.toLower '\n' = '\n' := rfl
  rw [lower_concat ("Full Name: " : String).data, hfn, lower_cons 'a', ha,
    lower_concat (List.replicate n2 'a'), lower_replicate n2 'a', ha,
    lower_cons '\n', hnl, lower_concat ("Full Name: " : String).data, hfn,
    lower_cons 'b', hb, lower_replicate m2 'b', hb]

theorem ssr_family (n2 m2 : Nat) (hn : MIN_CHUNK_CHARS ≤ n2 + 1)
    (hm : MIN_CHUNK_CHARS ≤ m2 + 1) :
    split_structured_records (String.mk
      (("Full Name: " : String).data ++ 'a' :: (List.replicate n2 'a' ++
        '\n' :: (("Full Name: " : String).data ++ 'b' ::
          List.replicate m2 'b')))) =
      ["Full Name: " ++ String.mk ('a' :: List.replicate n2 'a'),
       "Full Name: " ++ String.mk ('b' :: List.replicate m2 'b')] := by
  unfold split_structured_records
  rw [show (String.mk (("Full Name: " : String).data ++ 'a' ::
      (List.replicate n2 'a' ++ '\n' :: (("Full Name: " : String).data ++
        'b' :: List.replicate m2 'b')))).data =
    (("Full Name: " : String).data ++ 'a' :: (List.replicate n2 'a' ++
      '\n' :: (("Full Name: " : String).data ++ 'b' ::
        List.replicate m2 'b'))) from rfl]
  rw [lower_family n2 m2]
  rw [if_neg (by
    rw [no_fm_family n2 m2]
    exact Bool.false_ne_true)]
  rw [if_pos (count_family n2 m2)]
  rw [fnSplit_family n2 m2]
  show List.map (fun p => "Full Name: " ++ String.mk (stripChars p))
      (List.filter
        (fun p => decide (MIN_CHUNK_CHARS ≤ (stripChars p).length))
        (if (stripChars ([] : List Char)).length < 20 then
          ['a' :: List.replicate n2 'a', 'b' :: List.replicate m2 'b']
        else
          [] :: ['a' :: List.replicate n2 'a',
            'b' :: List.replicate m2 'b'])) = _
  rw [if_pos (show (stripChars ([] : List Char)).length < 20 from by decide)]
  have hfa : decide (MIN_CHUNK_CHARS ≤
      (stripChars ('a' :: List.replicate n2 'a')).length) = true := by
    rw [stripChars_run 'a' (by decide) n2]
    simp only [List.length_cons, List.length_replicate]
    exact decide_eq_true (by omega)
  have hfb : decide (MIN_CHUNK_CHARS ≤
      (stripChars ('b' :: List.replicate m2 'b')).length) = true := by
    rw [stripChars_run 'b' (by decide) m2]
    simp only [List.length_cons, List.length_replicate]
    exact decide_eq_true (by omega)
  simp only [List.filter_cons, hfa, hfb, if_true, List.filter_nil]
  rw [List.map_cons, List.map_cons, List.map_nil]
  rw [stripChars_run 'a' (by decide) n2, stripChars_run 'b' (by decide) m2]

theorem getLast?_append_cons_replicate (x : List Char) (c : Char) (k : Nat) :
    (x ++ c :: List.replicate k c).getLast? = some c := by
  rw [List.getLast?_append]
  rw [show c :: List.replicate k c = List.replicate (k + 1) c from
    (List.replicate_succ c k).symm]
  rw [getLast?_replicate_succ]
  rfl

theorem smart_chunk_via_records (text : String)
    (hlen : ¬ (pyStrip text).length < MIN_CHUNK_CHARS)
    (l : List String)
    (hl : split_structured_records (pyStrip text) = l)
    (hne : l.isEmpty = false) :
    smart_chunk_text text = l.map normalize_whitespace := by
  unfold smart_chunk_text
  rw [if_neg hlen, hl]
  simp [hne]

/-- Claim C6 (corrected): the two-chunks guarantee holds when the two
occurrences of the record delimiter are at line starts (as the split
pattern `(?:\n|^)\s*full name\s*[:\-]\s*` requires) with no long
preamble before the first and record bodies of at least
`MIN_CHUNK_CHARS` characters: for every pair of such record bodies (runs
of at least `MIN_CHUNK_CHARS` letters), the Chunker yields exactly two
chunks, each beginning with the normalized label prefix "Full Name: ".
For mid-line delimiter occurrences the claim fails — see the
counterexample, which yields one chunk. -/
theorem C6_theorem (n m : Nat) (hn : MIN_CHUNK_CHARS ≤ n)
    (hm : MIN_CHUNK_CHARS ≤ m) :
    smart_chunk_text ("Full Name: " ++ String.mk (List.replicate n 'a') ++
        "\n" ++ ("Full Name: " ++ String.mk (List.replicate m 'b'))) =
      ["Full Name: " ++ String.mk (List.replicate n 'a'),
       "Full Name: " ++ String.mk (List.replicate m 'b')] := by
  have hn60 : 60 ≤ n := hn
  have hm60 : 60 ≤ m := hm
  obtain ⟨n2, rfl⟩ : ∃ n2, n = n2 + 1 := ⟨n - 1, by omega⟩
  obtain ⟨m2, rfl⟩ : ∃ m2, m = m2 + 1 := ⟨m - 1, by omega⟩
  simp only [List.replicate_succ]
  have hdata : ("Full Name: " ++ String.mk ('a' :: List.replicate n2 'a') ++
      "\n" ++ ("Full Name: " ++
        String.mk ('b' :: List.replicate m2 'b'))).data =
      ("Full Name: " : String).data ++ 'a' :: (List.replicate n2 'a' ++
        '\n' :: (("Full Name: " : String).data ++ 'b' ::
          List.replicate m2 'b')) := by
    simp [String.data_append]
  have hstrip : pyStrip ("Full Name: " ++
      String.mk ('a' :: List.replicate n2 'a') ++ "\n" ++
      ("Full Name: " ++ String.mk ('b' :: List.replicate m2 'b'))) =
      String.mk (("Full Name: " : String).data ++ 'a' ::
        (List.replicate n2 'a' ++ '\n' ::
          (("Full Name: " : String).data ++ 'b' ::
            List.replicate m2 'b'))) := by
    show String.mk (stripChars _) = _
    rw [hdata]
    rw [stripChars_eq_self _
      (by intro c hc
          rw [show (("Full Name: " : String).data ++ 'a' ::
            (List.replicate n2 'a' ++ '\n' ::
              (("Full Name: " : String).data ++ 'b' ::
                List.replicate m2 'b'))).head? = some 'F' from rfl] at hc
          simp only [Option.some.injEq] at hc
          subst hc
          decide)
      (by intro c hc
          rw [show (("Full Name: " : String).data ++ 'a' ::
              (List.replicate n2 'a' ++ '\n' ::
                (("Full Name: " : String).data ++ 'b' ::
                  List.replicate m2 'b'))) =
            (("Full Name: " : String).data ++ 'a' ::
              (List.replicate n2 'a' ++ '\n' ::
                ("Full Name: " : String).data)) ++ 'b' ::
                  List.replicate m2 'b' from by simp] at hc
          rw [getLast?_append_cons_replicate] at hc
          simp only [Option.some.injEq] at hc
          subst hc
          decide)]
  have hlen : ¬ (pyStrip ("Full Name: " ++
      String.mk ('a' :: List.replicate n2 'a') ++ "\n" ++
      ("Full Name: " ++
        String.mk ('b' :: List.replicate m2 'b')))).length <
      MIN_CHUNK_CHARS := by
    rw [hstrip]
    show ¬ (("Full Name: " : String).data ++ 'a' ::
      (List.replicate n2 'a' ++ '\n' ::
        (("Full Name: " : String).data ++ 'b' ::
          List.replicate m2 'b'))).length < MIN_CHUNK_CHARS
    simp only [List.length_append, List.length_cons, List.length_replicate,
      MIN_CHUNK_CHARS]
    omega
  have hssr : split_structured_records (pyStrip ("Full Name: " ++
      String.mk ('a' :: List.replicate n2 'a') ++ "\n" ++
      ("Full Name: " ++ String.mk ('b' :: List.replicate m2 'b')))) =
      ["Full Name: " ++ String.mk ('a' :: List.replicate n2 'a'),
       "Full Name: " ++ String.mk ('b' :: List.replicate m2 'b')] := by
    rw [hstrip]
    exact ssr_family n2 m2 (by omega) (by omega)
  rw [smart_chunk_via_records _ hlen _ hssr rfl]
  rw [List.map_cons, List.map_cons, List.map_nil]
  rw [normalize_fn_chunk 'a' (by decide) n2,
    normalize_fn_chunk 'b' (by decide) m2]

/-- Witness for C6_theorem with two 61-character record bodies. -/
theorem C6_witness :
    smart_chunk_text ("Full Name: " ++ String.mk (List.replicate 61 'a') ++
        "\n" ++ ("Full Name: " ++ String.mk (List.replicate 61 'b'))) =
      ["Full Name: " ++ String.mk (List.replicate 61 'a'),
       "Full Name: " ++ String.mk (List.replicate 61 'b')] :=
  C6_theorem 61 61 (by decide) (by decide)

end CC
